/-
Verification of the order-lifecycle / inventory-consistency core of the
application-development-homework repository.

The embedding translates, function by function:
  * `OrderService.create_order`, `OrderService.update`, `OrderService.get_by_filter`
    from Lab7/src/services/order_service.py;
  * `OrderRepository.create`, `OrderRepository.update`, `OrderRepository.list`
    from Lab8/src/repositories/order_repository.py;
  * `handle_order_update_status`, `handle_order_update`
    from Lab6/src/messaging/order.py;
  * the product read/write surface (`ProductRepository.get_by_id` /
    `ProductRepository.update`) from Lab4/src/repositories/product_repository.py
    (Lab7's product repository is not in the sources; Lab4's is its sibling and
    the spec fixes the same contract in section 6).

The persistent state is a `DB` value threaded through every operation: a row
list per table plus autoincrement counters for order and order-item primary
keys.  Python `ValueError`s become values of `DomainError`; an operation
returns `Except DomainError result × DB`, the second component being the
committed state (errors before any commit leave the state unchanged, matching
session rollback semantics).  Prices are rationals, quantities and stock are
integers, as the columns are `Float` / `Integer`.
-/
import Mathlib

/-- A row of the `products` table (Lab4 src/models/product.py surface used by
the core: id, price, stock_quantity). -/
structure Product where
  id : Nat
  price : ℚ
  stock_quantity : Int
  deriving Repr, DecidableEq

/-- A row of the `order_items` table (Lab4 src/models/order.py): primary key,
owning order is implicit in the containing `Order`, product reference,
quantity, unit-price snapshot. -/
structure OrderItem where
  id : Nat
  product_id : Nat
  quantity : Int
  unit_price : ℚ
  deriving Repr, DecidableEq

/-- A row of the `orders` table together with its item rows
(Lab4 src/models/order.py; items relationship is eagerly loaded). -/
structure Order where
  id : Nat
  user_id : Nat
  status : String
  total_amount : ℚ
  items : List OrderItem
  deriving Repr, DecidableEq

/-- An incoming `{product_id, quantity}` dict, as produced by the
`OrderItemCreate` schema (Lab5 src/schemas/order.py). -/
structure ItemReq where
  product_id : Nat
  quantity : Int
  deriving Repr, DecidableEq

/-- Database state threaded through the operations: user ids, product rows,
order rows, and the autoincrement counters for order / order-item primary
keys. -/
structure DB where
  users : List Nat
  products : List Product
  orders : List Order
  nextOrderId : Nat
  nextItemId : Nat
  deriving Repr, DecidableEq

/-- The `ValueError`s raised by the order core, one constructor per distinct
message (Lab7 order_service.py, Lab8 order_repository.py, Lab6 messaging). -/
inductive DomainError where
  | userNotFound (uid : Nat)
  | orderNotFound (oid : Nat)
  | productNotFound (pid : Nat)
  | emptyItems
  | nonPositiveQuantity
  | insufficientStock
  | invalidStatus (s : String)
  | missingOrderId
  | missingStatus
  deriving Repr, DecidableEq

/-- `session.get(Product, pid)` / `ProductRepository.get_by_id`: first row
with the given primary key, if any. -/
def getProduct : List Product → Nat → Option Product
  | [], _ => none
  | p :: ps, pid => if p.id = pid then some p else getProduct ps pid

/-- `ProductRepository.update(pid, stock_quantity=s)` write step: set the
stock of every row with key `pid` (the key is unique in any real table). -/
def setStock : List Product → Nat → Int → List Product
  | [], _, _ => []
  | p :: ps, pid, s =>
      (if p.id = pid then { p with stock_quantity := s } else p) :: setStock ps pid s

/-- `OrderRepository.get_by_id` lookup inside the state: first order row with
the given primary key. -/
def getOrder : List Order → Nat → Option Order
  | [], _ => none
  | o :: os, oid => if o.id = oid then some o else getOrder os oid

/-- Committing a mutated ORM order object: every row with key `oid` is
replaced by the new row value. -/
def replaceOrder : List Order → Nat → Order → List Order
  | [], _, _ => []
  | o :: os, oid, newo =>
      (if o.id = oid then newo else o) :: replaceOrder os oid newo

theorem getProduct_setStock (ps : List Product) (x y : Nat) (s : Int) :
    getProduct (setStock ps x s) y =
      (getProduct ps y).map
        (fun p => if y = x then { p with stock_quantity := s } else p) := by
  induction ps with
  | nil => rfl
  | cons p ps ih =>
      by_cases hpy : p.id = y
      · by_cases hpx : p.id = x
        · simp [getProduct, setStock, hpy, hpx, hpx ▸ hpy.symm]
        · have hxy : ¬ y = x := fun h => hpx (h ▸ hpy)
          simp [getProduct, setStock, hpy, hpx, hxy]
      · by_cases hpx : p.id = x
        · have hxy : ¬ x = y := fun h => hpy (hpx.trans h)
          simp [getProduct, setStock, hpy, hpx, hxy, ih]
        · simp [getProduct, setStock, hpy, hpx, ih]

theorem getOrder_replaceOrder (os : List Order) (x y : Nat) (o : Order)
    (hid : o.id = x) :
    getOrder (replaceOrder os x o) y =
      if y = x then (getOrder os y).map (fun _ => o) else getOrder os y := by
  induction os with
  | nil => simp [getOrder, replaceOrder]
  | cons a os ih =>
      by_cases hay : a.id = y
      · by_cases hax : a.id = x
        · have hyx : y = x := hay ▸ hax
          simp [getOrder, replaceOrder, hay, hax, hyx, hyx ▸ hid]
        · have hyx : ¬ y = x := fun h => hax (h ▸ hay)
          simp [getOrder, replaceOrder, hay, hax, hyx]
      · by_cases hax : a.id = x
        · by_cases hyx : y = x
          · exact absurd (hyx ▸ hax) hay
          · have hoy : ¬ o.id = y := fun h => hyx (h ▸ hid)
            have hxy : ¬ x = y := fun h => hyx h.symm
            simp [getOrder, replaceOrder, hay, hax, hyx, hoy, hxy, ih]
        · simp [getOrder, replaceOrder, hay, hax, ih]

/-- Running total `total += quantity * unit_price` accumulated over item rows
(Lab8 order_repository.py, `create` and `update`). -/
def itemsTotal : List OrderItem → ℚ
  | [] => 0
  | oi :: rest => (oi.quantity : ℚ) * oi.unit_price + itemsTotal rest

/-- The item loop of `OrderRepository.create` (Lab8): resolve each product
for its price snapshot, materialise the `OrderItem` rows with consecutive
autoincrement ids, failing on the first missing product. -/
def buildItems (ps : List Product) : List ItemReq → Nat → Except DomainError (List OrderItem)
  | [], _ => .ok []
  | it :: rest, nid =>
      match getProduct ps it.product_id with
      | none => .error (.productNotFound it.product_id)
      | some p =>
          (buildItems ps rest (nid + 1)).map
            (fun l => ⟨nid, it.product_id, it.quantity, p.price⟩ :: l)

/-- `OrderRepository.create(user_id, items)` (Lab8 order_repository.py):
check the user, build the item rows with price snapshots, store the order
with status `"pending"` and the accumulated total.  An error before the
commit leaves the state unchanged (session rollback). -/
def OrderRepository.create (db : DB) (uid : Nat) (items : List ItemReq) :
    Except DomainError Order × DB :=
  if uid ∈ db.users then
    match buildItems db.products items db.nextItemId with
    | .error e => (.error e, db)
    | .ok ois =>
        let order : Order := ⟨db.nextOrderId, uid, "pending", itemsTotal ois, ois⟩
        (.ok order,
         { db with
             orders := db.orders ++ [order],
             nextOrderId := db.nextOrderId + 1,
             nextItemId := db.nextItemId + ois.length })
  else (.error (.userNotFound uid), db)

/-- The validation loop of `OrderService.create_order` (Lab7
order_service.py, lines 41-48): per item resolve the product then compare the
requested quantity with the current stock; pure reads, collecting the
`(product_id, quantity)` pairs for the later decrement loop. -/
def validateItems (ps : List Product) : List ItemReq → Except DomainError (List (Nat × Int))
  | [] => .ok []
  | it :: rest =>
      match getProduct ps it.product_id with
      | none => .error (.productNotFound it.product_id)
      | some p =>
          if p.stock_quantity < it.quantity then .error .insufficientStock
          else (validateItems ps rest).map (fun l => (it.product_id, it.quantity) :: l)

/-- The decrement loop of `OrderService.create_order` (Lab7, lines 50-54):
`product.stock_quantity -= quantity` followed by a committed
`product_repository.update`; each write is visible to the next iteration
(the session identity map shares the row object). -/
def applyDecrements : List Product → List (Nat × Int) → List Product
  | ps, [] => ps
  | ps, (pid, qty) :: rest =>
      applyDecrements
        (match getProduct ps pid with
         | none => ps
         | some p => setStock ps pid (p.stock_quantity - qty))
        rest

/-- `OrderService.create_order(order_data)` (Lab7 order_service.py): user
check, non-empty check, all-quantities-positive check, full validation scan,
then the stock decrements, then `OrderRepository.create`. -/
def OrderService.create_order (db : DB) (uid : Nat) (items : List ItemReq) :
    Except DomainError Order × DB :=
  if uid ∈ db.users then
    if items.isEmpty then (.error .emptyItems, db)
    else if items.any (fun it => decide (it.quantity ≤ 0)) then
      (.error .nonPositiveQuantity, db)
    else
      match validateItems db.products items with
      | .error e => (.error e, db)
      | .ok pairs =>
          OrderRepository.create
            { db with products := applyDecrements db.products pairs } uid items
  else (.error (.userNotFound uid), db)

/-- The restitution loop of `OrderService.update` (Lab7, lines 103-110): for
every item of the order being cancelled, if its product still exists, write
back `stock_quantity + quantity`; a missing product is skipped silently. -/
def restock : List Product → List OrderItem → List Product
  | ps, [] => ps
  | ps, item :: rest =>
      restock
        (match getProduct ps item.product_id with
         | none => ps
         | some p => setStock ps item.product_id (p.stock_quantity + item.quantity))
        rest

/-- One insertion into the Python dict
`existing_by_product = {int(i.product_id): i for i in order.items}`:
a later row with the same key overwrites the stored value, a new key is
appended (insertion order preserved). -/
def upsertEntry (acc : List (Nat × Nat)) (pid rid : Nat) : List (Nat × Nat) :=
  if acc.any (fun e => decide (e.1 = pid)) then
    acc.map (fun e => if e.1 = pid then (pid, rid) else e)
  else acc ++ [(pid, rid)]

/-- Accumulator form of the dict comprehension over the order's item rows;
entries map a product id to the row id standing for the ORM object kept in
the dict. -/
def dictEntriesAux (acc : List (Nat × Nat)) : List OrderItem → List (Nat × Nat)
  | [] => acc
  | i :: rest => dictEntriesAux (upsertEntry acc i.product_id i.id) rest

/-- `existing_by_product` of `OrderRepository.update` (Lab8, line 92), as an
association list keyed by product id. -/
def dictEntries (items : List OrderItem) : List (Nat × Nat) :=
  dictEntriesAux [] items

/-- Dict lookup `existing_by_product[pid]`, returning the row id. -/
def lookupPid : List (Nat × Nat) → Nat → Option Nat
  | [], _ => none
  | e :: rest, pid => if e.1 = pid then some e.2 else lookupPid rest pid

/-- The reconciliation loop of `OrderRepository.update` (Lab8, lines 96-121):
for each incoming `{product_id, quantity}` resolve the product (error if
absent), then either mutate the dict's row in place (new quantity, refreshed
price snapshot) or append a brand-new row with the next autoincrement id;
the running total and the `seen_product_ids` set are threaded through. -/
def diffGo (ps : List Product) (dict : List (Nat × Nat)) :
    List ItemReq → List OrderItem → ℚ → List Nat → Nat →
    Except DomainError (List OrderItem × ℚ × List Nat × Nat)
  | [], cur, total, seen, nid => .ok (cur, total, seen, nid)
  | ni :: rest, cur, total, seen, nid =>
      match getProduct ps ni.product_id with
      | none => .error (.productNotFound ni.product_id)
      | some p =>
          match lookupPid dict ni.product_id with
          | some rid =>
              diffGo ps dict rest
                (cur.map (fun r =>
                  if r.id = rid then
                    { r with quantity := ni.quantity, unit_price := p.price }
                  else r))
                (total + (ni.quantity : ℚ) * p.price) (ni.product_id :: seen) nid
          | none =>
              diffGo ps dict rest
                (cur ++ [⟨nid, ni.product_id, ni.quantity, p.price⟩])
                (total + (ni.quantity : ℚ) * p.price) (ni.product_id :: seen) (nid + 1)

/-- The deletion loop of `OrderRepository.update` (Lab8, lines 123-125): the
dict rows whose product id was never seen among the incoming items are
deleted. -/
def deadRowIds (dict : List (Nat × Nat)) (seen : List Nat) : List Nat :=
  dict.filterMap (fun e => if e.1 ∈ seen then none else some e.2)

/-- `OrderRepository.update(order_id, **patch)` (Lab8 order_repository.py):
`None` for a missing order (not an error), optional status overwrite,
optional item reconciliation with total recomputation; an error during the
item loop rolls the whole update back. -/
def OrderRepository.update (db : DB) (oid : Nat)
    (status? : Option String) (items? : Option (List ItemReq)) :
    Except DomainError (Option Order) × DB :=
  match getOrder db.orders oid with
  | none => (.ok none, db)
  | some order =>
      let newStatus := status?.getD order.status
      match items? with
      | none =>
          let newOrder := { order with status := newStatus }
          (.ok (some newOrder),
           { db with orders := replaceOrder db.orders oid newOrder })
      | some newItems =>
          match diffGo db.products (dictEntries order.items) newItems
              order.items 0 [] db.nextItemId with
          | .error e => (.error e, db)
          | .ok (cur, total, seen, nid) =>
              let finalItems :=
                cur.filter (fun r =>
                  decide (r.id ∉ deadRowIds (dictEntries order.items) seen))
              let newOrder :=
                { order with status := newStatus, items := finalItems,
                             total_amount := total }
              (.ok (some newOrder),
               { db with orders := replaceOrder db.orders oid newOrder,
                         nextItemId := nid })

/-- `valid_statuses` of `OrderService.update` (Lab7, lines 91-97). -/
def validStatuses : List String :=
  ["pending", "processing", "shipped", "delivered", "cancelled"]

/-- The `status`/`items` patch handed to `OrderService.update`; a `none`
field models an absent or `None` key of `update_data`. -/
structure UpdatePatch where
  status : Option String := none
  items : Option (List ItemReq) := none
  deriving Repr, DecidableEq

/-- Tail of `OrderService.update` (Lab7, lines 122-127): the repository call
on a non-empty field dict; `None` from the repository would surface as a
missing order. -/
def OrderService.repoCall (db : DB) (oid : Nat)
    (st : Option String) (its : Option (List ItemReq)) :
    Except DomainError Order × DB :=
  match OrderRepository.update db oid st its with
  | (.ok (some o), db') => (.ok o, db')
  | (.ok none, db') => (.error (.orderNotFound oid), db')
  | (.error e, db') => (.error e, db')

/-- `OrderService.update(order_id, update_data)` (Lab7 order_service.py):
existence check, status-string validation against `valid_statuses`, stock
restitution when entering `"cancelled"` from a different pre-update status,
then the repository update with the collected fields; with no fields at all
the found order is returned untouched. -/
def OrderService.update (db : DB) (oid : Nat) (patch : UpdatePatch) :
    Except DomainError Order × DB :=
  match getOrder db.orders oid with
  | none => (.error (.orderNotFound oid), db)
  | some order =>
      match patch.status with
      | some s =>
          if s ∈ validStatuses then
            OrderService.repoCall
              (if s = "cancelled" ∧ order.status ≠ "cancelled" then
                 { db with products := restock db.products order.items }
               else db)
              oid (some s) patch.items
          else (.error (.invalidStatus s), db)
      | none =>
          match patch.items with
          | none => (.ok order, db)
          | some _ => OrderService.repoCall db oid none patch.items

/-- The two `.where(...)` filters of `OrderRepository.list` (Lab8, lines
64-70), conjoined. -/
def matchesFilter (uid? : Option Nat) (st? : Option String) (o : Order) : Bool :=
  (match uid? with
   | none => true
   | some u => decide (o.user_id = u)) &&
  (match st? with
   | none => true
   | some s => decide (o.status = s))

/-- `OrderRepository.list(limit, offset, user_id, status)` (Lab8
order_repository.py): the total counts every row passing the filters, the
page applies offset then limit to the filtered rows. -/
def OrderRepository.list (db : DB) (limit offset : Nat)
    (uid? : Option Nat) (st? : Option String) : Nat × List Order :=
  let filtered := db.orders.filter (matchesFilter uid? st?)
  (filtered.length, (filtered.drop offset).take limit)

/-- The native path of `OrderService.get_by_filter` (Lab7, lines 139-144):
`offset = (page - 1) * count` then the repository's filtered list. -/
def OrderService.get_by_filter (db : DB) (count page : Nat)
    (uid? : Option Nat) (st? : Option String) : Nat × List Order :=
  OrderRepository.list db count ((page - 1) * count) uid? st?

/-- The fallback path of `OrderService.get_by_filter` (Lab7, lines 145-156):
fetch `list(limit=1000, offset=0)` unfiltered, filter by user then status in
process, report the filtered length as total and slice
`[offset : offset + count]` as the page. -/
def OrderService.get_by_filter_fallback (db : DB) (count page : Nat)
    (uid? : Option Nat) (st? : Option String) : Nat × List Order :=
  let allOrders := (OrderRepository.list db 1000 0 none none).2
  let f1 := match uid? with
    | none => allOrders
    | some u => allOrders.filter (fun o => decide (o.user_id = u))
  let f2 := match st? with
    | none => f1
    | some s => f1.filter (fun o => decide (o.status = s))
  (f2.length, (f2.drop ((page - 1) * count)).take count)

/-- Payload of an `update_status` command (Lab6 messaging/order.py); the
fields come from `data.get(...)`, so each may be absent. -/
structure StatusPayload where
  order_id : Option Nat := none
  status : Option String := none
  deriving Repr, DecidableEq

/-- Payload of an `update` command (Lab6 messaging/order.py): the order id is
popped from the dict before the rest is parsed as `OrderUpdate`, whose
`items` field is required and whose `status` field is optional. -/
structure UpdatePayload where
  order_id : Option Nat := none
  status : Option String := none
  items : List ItemReq := []
  deriving Repr, DecidableEq

/-- `handle_order_update_status(service, data)` (Lab6, lines 74-98): reject a
missing (or Python-falsy, i.e. zero) order id, then a missing (or empty)
status, before any service call; otherwise run `OrderService.update` with a
status-only patch. -/
def handle_order_update_status (db : DB) (p : StatusPayload) :
    Except DomainError Order × DB :=
  match p.order_id with
  | none => (.error .missingOrderId, db)
  | some oid =>
      if oid = 0 then (.error .missingOrderId, db)
      else
        match p.status with
        | none => (.error .missingStatus, db)
        | some s =>
            if s = "" then (.error .missingStatus, db)
            else OrderService.update db oid ⟨some s, none⟩

/-- `handle_order_update(service, data)` (Lab6, lines 101-114): reject a
missing (or zero) order id before parsing the body or touching the service;
otherwise run `OrderService.update` with the payload's status/items. -/
def handle_order_update (db : DB) (p : UpdatePayload) :
    Except DomainError Order × DB :=
  match p.order_id with
  | none => (.error .missingOrderId, db)
  | some oid =>
      if oid = 0 then (.error .missingOrderId, db)
      else OrderService.update db oid ⟨p.status, some p.items⟩

/-- Total quantity the order's items hold against one product (an order built
by `create` has at most one such item). -/
def qtyFor : List OrderItem → Nat → Int
  | [], _ => 0
  | i :: rest, pid => (if i.product_id = pid then i.quantity else 0) + qtyFor rest pid

theorem getProduct_some_id (ps : List Product) (pid : Nat) (p : Product)
    (h : getProduct ps pid = some p) : p.id = pid := by
  induction ps with
  | nil => exact absurd h (by simp [getProduct])
  | cons a ps ih =>
      by_cases ha : a.id = pid
      · simp only [getProduct, if_pos ha] at h
        exact (Option.some.injEq _ _ ▸ h) ▸ ha
      · exact ih (by simpa [getProduct, ha] using h)

theorem getOrder_some_id (os : List Order) (oid : Nat) (o : Order)
    (h : getOrder os oid = some o) : o.id = oid := by
  induction os with
  | nil => exact absurd h (by simp [getOrder])
  | cons a os ih =>
      by_cases ha : a.id = oid
      · simp only [getOrder, if_pos ha] at h
        exact (Option.some.injEq _ _ ▸ h) ▸ ha
      · exact ih (by simpa [getOrder, ha] using h)

/-- Effect of the whole restitution loop on any product: its stock grows by
the total quantity the cancelled order held against it; rows absent from the
table stay absent (their items are skipped). -/
theorem getProduct_restock (items : List OrderItem) (ps : List Product) (pid : Nat) :
    getProduct (restock ps items) pid =
      (getProduct ps pid).map
        (fun p => { p with stock_quantity := p.stock_quantity + qtyFor items pid }) := by
  induction items generalizing ps with
  | nil =>
      cases h : getProduct ps pid with
      | none => simp [restock, h]
      | some p => simp [restock, h, qtyFor]
  | cons i rest ih =>
      show getProduct
        (restock (match getProduct ps i.product_id with
                  | none => ps
                  | some p => setStock ps i.product_id (p.stock_quantity + i.quantity))
          rest) pid = _
      cases hibase : getProduct ps i.product_id with
      | none =>
          show getProduct (restock ps rest) pid = _
          rw [ih ps]
          by_cases hip : i.product_id = pid
          · rw [hip] at hibase
            simp [hibase]
          · cases h : getProduct ps pid with
            | none => simp [h]
            | some p => simp [h, qtyFor, hip]
      | some q =>
          show getProduct
            (restock (setStock ps i.product_id (q.stock_quantity + i.quantity)) rest) pid = _
          rw [ih _]
          rw [getProduct_setStock]
          by_cases hip : i.product_id = pid
          · subst hip
            rw [hibase]
            simp [qtyFor, Option.map, add_assoc]
          · have hpi : ¬ pid = i.product_id := fun h => hip h.symm
            cases h : getProduct ps pid with
            | none => simp [h, hpi]
            | some p => simp [h, hpi, qtyFor, hip]

theorem repoCall_status_only (db : DB) (oid : Nat) (order : Order) (st : String)
    (hfind : getOrder db.orders oid = some order) :
    OrderService.repoCall db oid (some st) none =
      (.ok { order with status := st },
       { db with orders := replaceOrder db.orders oid { order with status := st } }) := by
  simp [OrderService.repoCall, OrderRepository.update, hfind]

/-- Reduction of `OrderService.update` on a `{"status": "cancelled"}` patch:
restitution happens iff the pre-update status differs from `"cancelled"`,
then the repository stores the new status. -/
theorem service_update_cancel (db : DB) (oid : Nat) (order : Order)
    (hfind : getOrder db.orders oid = some order) :
    OrderService.update db oid ⟨some "cancelled", none⟩ =
      (.ok { order with status := "cancelled" },
       if order.status = "cancelled" then
         { db with orders := replaceOrder db.orders oid { order with status := "cancelled" } }
       else
         { db with products := restock db.products order.items,
                   orders := replaceOrder db.orders oid { order with status := "cancelled" } }) := by
  by_cases hc : order.status = "cancelled"
  · simp only [OrderService.update, hfind]
    rw [if_pos (by simp [validStatuses]), if_neg (by simp [hc]), if_pos hc]
    exact repoCall_status_only db oid order "cancelled" hfind
  · simp only [OrderService.update, hfind]
    rw [if_pos (by simp [validStatuses]), if_pos (by simp [hc]), if_neg hc]
    exact repoCall_status_only { db with products := restock db.products order.items }
      oid order "cancelled" hfind

/-- C3: updating a non-cancelled order to `"cancelled"` adds each item's
quantity back to the referenced product's stock exactly once (the stock ends
at `old + qtyFor items pid`); repeating the cancellation on an
already-cancelled order performs no restitution at all, because the guard
reads the pre-update status, not the requested one. -/
theorem cancellation_restitution_once (db : DB) (oid : Nat) (order : Order)
    (hfind : getOrder db.orders oid = some order) :
    (order.status ≠ "cancelled" →
      ∀ pid, getProduct (OrderService.update db oid ⟨some "cancelled", none⟩).2.products pid =
        (getProduct db.products pid).map
          (fun p => { p with stock_quantity := p.stock_quantity + qtyFor order.items pid }))
    ∧ (order.status = "cancelled" →
      (OrderService.update db oid ⟨some "cancelled", none⟩).2.products = db.products) := by
  constructor
  · intro hnc pid
    rw [service_update_cancel db oid order hfind]
    rw [if_neg hnc]
    exact getProduct_restock order.items db.products pid
  · intro hc
    rw [service_update_cancel db oid order hfind]
    rw [if_pos hc]

def dbC3 : DB :=
  ⟨[1], [⟨1, 10, 50⟩, ⟨2, 20, 7⟩],
   [⟨5, 1, "processing", 0, [⟨100, 1, 2, 10⟩, ⟨101, 2, 3, 20⟩]⟩], 10, 200⟩

def orderC3 : Order := ⟨5, 1, "processing", 0, [⟨100, 1, 2, 10⟩, ⟨101, 2, 3, 20⟩]⟩

theorem cancellation_restitution_once_witness :
    getProduct (OrderService.update dbC3 5 ⟨some "cancelled", none⟩).2.products 1 =
      (getProduct dbC3.products 1).map
        (fun p => { p with stock_quantity := p.stock_quantity + qtyFor orderC3.items 1 }) :=
  (cancellation_restitution_once dbC3 5 orderC3 rfl).1 (by decide) 1

/-- C10: when a cancellation's restitution loop meets an item whose product
no longer exists, that item is skipped silently: the update still succeeds
and stores `"cancelled"`, the missing product stays absent, and every product
still present receives its full restitution. -/
theorem cancellation_skips_missing_product (db : DB) (oid : Nat) (order : Order)
    (item : OrderItem)
    (hfind : getOrder db.orders oid = some order)
    (hnc : order.status ≠ "cancelled")
    (hmem : item ∈ order.items)
    (habs : getProduct db.products item.product_id = none) :
    (OrderService.update db oid ⟨some "cancelled", none⟩).1 =
        .ok { order with status := "cancelled" }
    ∧ getProduct (OrderService.update db oid ⟨some "cancelled", none⟩).2.products
        item.product_id = none
    ∧ ∀ pid p, getProduct db.products pid = some p →
        getProduct (OrderService.update db oid ⟨some "cancelled", none⟩).2.products pid =
          some { p with stock_quantity := p.stock_quantity + qtyFor order.items pid } := by
  refine ⟨?_, ?_, ?_⟩
  · rw [service_update_cancel db oid order hfind]
  · rw [service_update_cancel db oid order hfind, if_neg hnc]
    rw [getProduct_restock order.items db.products item.product_id, habs]
    rfl
  · intro pid p hp
    rw [service_update_cancel db oid order hfind, if_neg hnc]
    rw [getProduct_restock order.items db.products pid, hp]
    rfl

def dbC10 : DB :=
  ⟨[1], [⟨2, 20, 7⟩],
   [⟨5, 1, "processing", 0, [⟨100, 1, 2, 10⟩, ⟨101, 2, 3, 20⟩]⟩], 10, 200⟩

def orderC10 : Order := ⟨5, 1, "processing", 0, [⟨100, 1, 2, 10⟩, ⟨101, 2, 3, 20⟩]⟩

theorem cancellation_skips_missing_product_witness :
    (OrderService.update dbC10 5 ⟨some "cancelled", none⟩).1 =
      .ok { orderC10 with status := "cancelled" } :=
  (cancellation_skips_missing_product dbC10 5 orderC10 ⟨100, 1, 2, 10⟩
    rfl (by decide) (by decide) rfl).1

/-- C9: an async `update_status` or `update` command without an order id in
its payload fails with the invalid-argument error (`order_id is required`)
immediately: the returned state is the input state, untouched — the service
is never invoked. -/
theorem async_missing_order_id_rejected (db : DB) (sp : StatusPayload)
    (up : UpdatePayload) (h1 : sp.order_id = none) (h2 : up.order_id = none) :
    handle_order_update_status db sp = (.error .missingOrderId, db)
    ∧ handle_order_update db up = (.error .missingOrderId, db) := by
  constructor
  · simp [handle_order_update_status, h1]
  · simp [handle_order_update, h2]

theorem async_missing_order_id_rejected_witness :
    handle_order_update_status ⟨[7], [⟨1, 10, 5⟩], [], 0, 0⟩ ⟨none, some "cancelled"⟩ =
      (.error .missingOrderId, ⟨[7], [⟨1, 10, 5⟩], [], 0, 0⟩) :=
  (async_missing_order_id_rejected ⟨[7], [⟨1, 10, 5⟩], [], 0, 0⟩
    ⟨none, some "cancelled"⟩ ⟨none, none, []⟩ rfl rfl).1

def dbC5 : DB :=
  ⟨[1], [⟨1, 10, 50⟩], [⟨5, 1, "delivered", 20, [⟨100, 1, 2, 10⟩]⟩], 10, 200⟩

def orderC5 : Order := ⟨5, 1, "delivered", 20, [⟨100, 1, 2, 10⟩]⟩

/-- C5 counterexample: a `"delivered"` order is not terminal — updating it to
`"pending"` succeeds and overwrites the status, so the claimed state machine
is not enforced. -/
theorem delivered_not_terminal_counterexample :
    (getOrder dbC5.orders 5).map Order.status = some "delivered"
    ∧ (OrderService.update dbC5 5 ⟨some "pending", none⟩).1 =
        .ok ⟨5, 1, "pending", 20, [⟨100, 1, 2, 10⟩]⟩ := by
  exact ⟨rfl, rfl⟩

/-- C5 amended: `OrderService.update` validates a requested status only for
membership in `valid_statuses`; any member is accepted from any pre-update
status (so `delivered`/`cancelled` are not terminal and no transition order
is enforced), while a non-member fails with `InvalidArgument` and leaves the
state unchanged. -/
theorem status_update_membership_only (db : DB) (oid : Nat) (order : Order)
    (s : String) (hfind : getOrder db.orders oid = some order) :
    (s ∉ validStatuses →
      OrderService.update db oid ⟨some s, none⟩ = (.error (.invalidStatus s), db))
    ∧ (s ∈ validStatuses →
      (OrderService.update db oid ⟨some s, none⟩).1 = .ok { order with status := s }) := by
  constructor
  · intro hnot
    simp only [OrderService.update, hfind]
    rw [if_neg hnot]
  · intro hmemb
    by_cases hcs : s = "cancelled"
    · subst hcs
      rw [service_update_cancel db oid order hfind]
    · simp only [OrderService.update, hfind]
      rw [if_pos hmemb, if_neg (by simp [hcs])]
      rw [repoCall_status_only db oid order s hfind]

theorem status_update_membership_only_witness :
    (OrderService.update dbC5 5 ⟨some "shipped", none⟩).1 =
      .ok { orderC5 with status := "shipped" } :=
  (status_update_membership_only dbC5 5 orderC5 "shipped" rfl).2 (by decide)

theorem orderRepository_update_products (db : DB) (oid : Nat)
    (st : Option String) (its : Option (List ItemReq)) :
    (OrderRepository.update db oid st its).2.products = db.products := by
  unfold OrderRepository.update
  split
  · rfl
  · split
    · rfl
    · split
      · rfl
      · rfl

theorem repoCall_products (db : DB) (oid : Nat)
    (st : Option String) (its : Option (List ItemReq)) :
    (OrderService.repoCall db oid st its).2.products = db.products := by
  have h := orderRepository_update_products db oid st its
  unfold OrderService.repoCall
  rcases hu : OrderRepository.update db oid st its with ⟨r, db'⟩
  rw [hu] at h
  cases r with
  | ok o? =>
      cases o? with
      | some o => simpa using h
      | none => simpa using h
  | error e => simpa using h

def dbC4 : DB :=
  ⟨[1], [⟨1, 10, 50⟩], [⟨5, 1, "pending", 20, [⟨100, 1, 2, 10⟩]⟩], 10, 200⟩

/-- C4 counterexample: an item-diff update that raises an item's quantity
from 2 to 3 succeeds but leaves the product's stock at 50 — no delta
decrement happens, contrary to the claim. -/
theorem item_diff_no_stock_delta_counterexample :
    ((OrderRepository.update dbC4 5 none (some [⟨1, 3⟩])).1.toOption.map
        (Option.map Order.items)) = some (some [⟨100, 1, 3, 10⟩])
    ∧ (OrderRepository.update dbC4 5 none (some [⟨1, 3⟩])).2.products =
        [⟨1, 10, 50⟩] := by
  exact ⟨rfl, rfl⟩

/-- C4 amended: the item-diff update path never mutates product stock at all
— `OrderRepository.update` preserves the product table identically, and the
service's update path touches stock only on a transition into
`"cancelled"`; stock is otherwise mutated only by order creation. -/
theorem stock_mutated_only_by_create_and_cancellation :
    (∀ (db : DB) (oid : Nat) (st : Option String) (its : Option (List ItemReq)),
      (OrderRepository.update db oid st its).2.products = db.products)
    ∧ (∀ (db : DB) (oid : Nat) (patch : UpdatePatch),
        patch.status ≠ some "cancelled" →
        (OrderService.update db oid patch).2.products = db.products) := by
  refine ⟨orderRepository_update_products, ?_⟩
  intro db oid patch hst
  obtain ⟨st, its⟩ := patch
  cases hord : getOrder db.orders oid with
  | none => simp [OrderService.update, hord]
  | some order =>
      cases st with
      | none =>
          cases its with
          | none => simp [OrderService.update, hord]
          | some newItems =>
              have h2 := repoCall_products db oid none (some newItems)
              simpa [OrderService.update, hord] using h2
      | some s =>
          have hsc : s ≠ "cancelled" := by
            intro hcon
            exact hst (by simp [hcon])
          by_cases hv : s ∈ validStatuses
          · simp only [OrderService.update, hord]
            rw [if_pos hv, if_neg (by simp [hsc])]
            exact repoCall_products db oid (some s) its
          · simp only [OrderService.update, hord]
            rw [if_neg hv]

theorem stock_mutated_only_by_create_and_cancellation_witness :
    (OrderService.update dbC4 5 ⟨some "shipped", none⟩).2.products = dbC4.products :=
  stock_mutated_only_by_create_and_cancellation.2 dbC4 5 ⟨some "shipped", none⟩
    (by decide)

/-- An item of a create request failing step-3 validation: its product is
absent, or its quantity exceeds the product's current stock. -/
def itemFailsValidation (ps : List Product) (it : ItemReq) : Prop :=
  getProduct ps it.product_id = none ∨
  ∃ p, getProduct ps it.product_id = some p ∧ p.stock_quantity < it.quantity

theorem validateItems_ok_sound (ps : List Product) (items : List ItemReq)
    (l : List (Nat × Int)) (h : validateItems ps items = .ok l) :
    ∀ it ∈ items, ∃ p, getProduct ps it.product_id = some p ∧
      ¬ p.stock_quantity < it.quantity := by
  induction items generalizing l with
  | nil => intro it hmem; cases hmem
  | cons it0 rest ih =>
      intro it hmem
      unfold validateItems at h
      split at h
      · exact Except.noConfusion h
      · rename_i p hp
        split at h
        · exact Except.noConfusion h
        · rename_i hlt
          cases hmem with
          | head => exact ⟨p, hp, hlt⟩
          | tail _ hmem' =>
              cases hv : validateItems ps rest with
              | error e =>
                  rw [hv] at h
                  exact Except.noConfusion h
              | ok l' => exact ih l' hv it hmem'

/-- C1: whenever some item of a create request fails product-existence or
stock validation, `create_order` fails and returns the state bit-for-bit
unchanged — no stock decrement has happened for the earlier items and no
order or item row exists, because the validation scan completes before any
mutation. -/
theorem create_order_failed_validation_leaves_state (db : DB) (uid : Nat)
    (items : List ItemReq)
    (h : ∃ it ∈ items, itemFailsValidation db.products it) :
    ∃ e, OrderService.create_order db uid items = (.error e, db) := by
  obtain ⟨it, hmem, hfail⟩ := h
  by_cases hu : uid ∈ db.users
  · by_cases he : items.isEmpty
    · exact ⟨.emptyItems,
        by unfold OrderService.create_order; rw [if_pos hu, if_pos he]⟩
    · by_cases ha : items.any (fun it => decide (it.quantity ≤ 0))
      · exact ⟨.nonPositiveQuantity,
          by unfold OrderService.create_order; rw [if_pos hu, if_neg he, if_pos ha]⟩
      · cases hv : validateItems db.products items with
        | error e =>
            exact ⟨e, by
              unfold OrderService.create_order
              rw [if_pos hu, if_neg he, if_neg ha, hv]⟩
        | ok pairs =>
            exfalso
            obtain ⟨p, hp, hnlt⟩ :=
              validateItems_ok_sound db.products items pairs hv it hmem
            cases hfail with
            | inl habs => exact Option.noConfusion (habs.symm.trans hp)
            | inr h2 =>
                obtain ⟨q, hq, hlt⟩ := h2
                cases Option.some.inj (hq.symm.trans hp)
                exact hnlt hlt
  · exact ⟨.userNotFound uid,
      by unfold OrderService.create_order; rw [if_neg hu]⟩

def dbC1 : DB := ⟨[1], [⟨1, 5, 2⟩], [], 10, 20⟩

theorem create_order_failed_validation_leaves_state_witness :
    ∃ e, OrderService.create_order dbC1 1 [⟨1, 3⟩] = (.error e, dbC1) :=
  create_order_failed_validation_leaves_state dbC1 1 [⟨1, 3⟩]
    ⟨⟨1, 3⟩, by decide, Or.inr ⟨⟨1, 5, 2⟩, rfl, by decide⟩⟩

theorem matchesFilter_none_none (o : Order) : matchesFilter none none o = true := rfl

/-- C8 amended: whenever the order table holds at most 1000 rows (the
fallback's fetch bound), the in-process fallback of `get_by_filter` returns
exactly the native filtered `(total, page)` pair, for every filter
combination and every count/page. -/
theorem fallback_pagination_equiv (db : DB) (count page : Nat)
    (uid? : Option Nat) (st? : Option String)
    (h : db.orders.length ≤ 1000) :
    OrderService.get_by_filter_fallback db count page uid? st? =
      OrderService.get_by_filter db count page uid? st? := by
  have hfilter : db.orders.filter (matchesFilter none none) = db.orders :=
    List.filter_eq_self.mpr (fun a _ => rfl)
  have hall : List.take 1000 (List.drop 0 db.orders) = db.orders := by
    rw [List.drop_zero]
    exact List.take_of_length_le h
  cases uid? with
  | none =>
      cases st? with
      | none =>
          simp only [OrderService.get_by_filter_fallback, OrderService.get_by_filter,
            OrderRepository.list, hall, hfilter]
      | some s =>
          simp only [OrderService.get_by_filter_fallback, OrderService.get_by_filter,
            OrderRepository.list, hfilter, hall]
          have hcg : db.orders.filter (fun o => decide (o.status = s)) =
              db.orders.filter (matchesFilter none (some s)) :=
            List.filter_congr (fun a _ => by simp [matchesFilter])
          rw [hcg]
  | some u =>
      cases st? with
      | none =>
          simp only [OrderService.get_by_filter_fallback, OrderService.get_by_filter,
            OrderRepository.list, hfilter, hall]
          have hcg : db.orders.filter (fun o => decide (o.user_id = u)) =
              db.orders.filter (matchesFilter (some u) none) :=
            List.filter_congr (fun a _ => by simp [matchesFilter])
          rw [hcg]
      | some s =>
          simp only [OrderService.get_by_filter_fallback, OrderService.get_by_filter,
            OrderRepository.list, hfilter, hall]
          rw [List.filter_filter]
          have hcg : db.orders.filter
              (fun a => decide (a.status = s) && decide (a.user_id = u)) =
              db.orders.filter (matchesFilter (some u) (some s)) :=
            List.filter_congr (fun a _ => by simp [matchesFilter, Bool.and_comm])
          rw [hcg]

def bigDb : DB :=
  ⟨[], [], (List.range 1001).map (fun i => ⟨i, 0, "pending", 0, []⟩), 0, 0⟩

/-- C8 counterexample: with 1001 stored orders and no filters, the fallback
reports total 1000 (it only ever fetches the first 1000 rows) while the
native path reports 1001, so the claimed equivalence fails for unbounded
datasets. -/
theorem fallback_truncation_counterexample :
    OrderService.get_by_filter_fallback bigDb 10 1 none none ≠
      OrderService.get_by_filter bigDb 10 1 none none := by
  intro hcon
  have hfilter : bigDb.orders.filter (matchesFilter none none) = bigDb.orders :=
    List.filter_eq_self.mpr (fun a _ => rfl)
  have hlen : bigDb.orders.length = 1001 := by
    simp [bigDb]
  have h1 : (OrderService.get_by_filter_fallback bigDb 10 1 none none).1 = 1000 := by
    simp only [OrderService.get_by_filter_fallback, OrderRepository.list]
    simp [hfilter, hlen]
  have h2 : (OrderService.get_by_filter bigDb 10 1 none none).1 = 1001 := by
    simp only [OrderService.get_by_filter, OrderRepository.list]
    simp [hfilter, hlen]
  have h3 := congrArg Prod.fst hcon
  rw [h1, h2] at h3
  exact absurd h3 (by decide)

def dbC8 : DB :=
  ⟨[], [],
   [⟨1, 7, "pending", 0, []⟩, ⟨2, 8, "shipped", 0, []⟩, ⟨3, 7, "pending", 0, []⟩],
   0, 0⟩

theorem fallback_pagination_equiv_witness :
    OrderService.get_by_filter_fallback dbC8 1 2 (some 7) none =
      OrderService.get_by_filter dbC8 1 2 (some 7) none :=
  fallback_pagination_equiv dbC8 1 2 (some 7) none (by decide)

/-- Whether some stored item row references the product. -/
def hasPid : List OrderItem → Nat → Bool
  | [], _ => false
  | r :: rest, pid => decide (r.product_id = pid) || hasPid rest pid

/-- First incoming request for a product id. -/
def findReq : List ItemReq → Nat → Option ItemReq
  | [], _ => none
  | ni :: rest, pid => if ni.product_id = pid then some ni else findReq rest pid

/-- Current catalog price of a product (0 when absent; only used under
presence hypotheses). -/
def priceOf (ps : List Product) (pid : Nat) : ℚ :=
  ((getProduct ps pid).map Product.price).getD 0

/-- The in-place mutation the diff performs on a stored row that is matched
by an incoming request: new quantity, refreshed price snapshot. -/
def updateBy (ps : List Product) (reqs : List ItemReq) (r : OrderItem) : OrderItem :=
  match findReq reqs r.product_id with
  | some ni => { r with quantity := ni.quantity, unit_price := priceOf ps r.product_id }
  | none => r

/-- The brand-new rows the diff inserts, in incoming order, with consecutive
autoincrement ids: one per incoming request whose product has no stored row. -/
def freshRows (ps : List Product) (orig : List OrderItem) :
    List ItemReq → Nat → List OrderItem
  | [], _ => []
  | ni :: rest, nid =>
      if hasPid orig ni.product_id then freshRows ps orig rest nid
      else ⟨nid, ni.product_id, ni.quantity, priceOf ps ni.product_id⟩ ::
        freshRows ps orig rest (nid + 1)

/-- Number of fresh rows the diff inserts. -/
def freshCount (orig : List OrderItem) : List ItemReq → Nat
  | [] => 0
  | ni :: rest => (if hasPid orig ni.product_id then 0 else 1) + freshCount orig rest

/-- Σ quantity × current price over incoming requests. -/
def sumReqs (ps : List Product) : List ItemReq → ℚ
  | [] => 0
  | ni :: rest => (ni.quantity : ℚ) * priceOf ps ni.product_id + sumReqs ps rest

/-- The dict row (product id, row id) standing for a stored item. -/
def pairOf (r : OrderItem) : Nat × Nat := (r.product_id, r.id)

/-- Row id the dict would hand back for a product id (first stored row wins;
with distinct product ids the dict holds exactly one row per key). -/
def rowIdFor : List OrderItem → Nat → Option Nat
  | [], _ => none
  | r :: rest, pid => if r.product_id = pid then some r.id else rowIdFor rest pid

theorem updateBy_id (ps : List Product) (reqs : List ItemReq) (r : OrderItem) :
    (updateBy ps reqs r).id = r.id := by
  unfold updateBy
  split <;> rfl

theorem updateBy_product_id (ps : List Product) (reqs : List ItemReq) (r : OrderItem) :
    (updateBy ps reqs r).product_id = r.product_id := by
  unfold updateBy
  split <;> rfl

theorem updateBy_nil (ps : List Product) (r : OrderItem) : updateBy ps [] r = r := rfl

theorem findReq_append (P Q : List ItemReq) (pid : Nat) :
    findReq (P ++ Q) pid =
      match findReq P pid with
      | some ni => some ni
      | none => findReq Q pid := by
  induction P with
  | nil => rfl
  | cons ni P ih =>
      by_cases hx : ni.product_id = pid
      · simp [findReq, hx]
      · simp [findReq, hx, ih]

theorem findReq_some (reqs : List ItemReq) (pid : Nat) (ni : ItemReq)
    (h : findReq reqs pid = some ni) : ni ∈ reqs ∧ ni.product_id = pid := by
  induction reqs with
  | nil => exact Option.noConfusion h
  | cons n0 rest ih =>
      by_cases hx : n0.product_id = pid
      · rw [findReq, if_pos hx] at h
        cases Option.some.inj h
        exact ⟨.head _, hx⟩
      · rw [findReq, if_neg hx] at h
        obtain ⟨hm, hp⟩ := ih h
        exact ⟨.tail _ hm, hp⟩

theorem findReq_eq_none (reqs : List ItemReq) (pid : Nat) :
    findReq reqs pid = none ↔ pid ∉ reqs.map (·.product_id) := by
  induction reqs with
  | nil => simp [findReq]
  | cons n0 rest ih =>
      by_cases hx : n0.product_id = pid
      · simp [findReq, hx]
      · simp [findReq, hx, ih, Ne.symm hx]

theorem findReq_isSome (reqs : List ItemReq) (pid : Nat) :
    (findReq reqs pid).isSome = true ↔ pid ∈ reqs.map (·.product_id) := by
  cases h : findReq reqs pid with
  | none =>
      have hn := (findReq_eq_none reqs pid).mp h
      simp [hn]
  | some ni =>
      have hs := findReq_some reqs pid ni h
      simp only [Option.isSome, true_iff]
      exact hs.2 ▸ List.mem_map_of_mem (·.product_id) hs.1

theorem findReq_of_mem_nodup (reqs : List ItemReq) (ni : ItemReq)
    (hN : (reqs.map (·.product_id)).Nodup) (hm : ni ∈ reqs) :
    findReq reqs ni.product_id = some ni := by
  induction reqs with
  | nil => cases hm
  | cons n0 rest ih =>
      rw [List.map_cons, List.nodup_cons] at hN
      cases hm with
      | head => rw [findReq, if_pos rfl]
      | tail _ hm' =>
          have hx : n0.product_id ≠ ni.product_id := by
            intro hcon
            exact hN.1 (hcon ▸ List.mem_map_of_mem (·.product_id) hm')
          rw [findReq, if_neg hx]
          exact ih hN.2 hm'

theorem hasPid_iff_mem (items : List OrderItem) (pid : Nat) :
    hasPid items pid = true ↔ pid ∈ items.map (·.product_id) := by
  induction items with
  | nil => simp [hasPid]
  | cons r rest ih =>
      by_cases hx : r.product_id = pid
      · simp [hasPid, hx]
      · simp [hasPid, hx, ih, Ne.symm hx]

theorem hasPid_of_mem (items : List OrderItem) (r : OrderItem) (hm : r ∈ items) :
    hasPid items r.product_id = true :=
  (hasPid_iff_mem items r.product_id).mpr (List.mem_map_of_mem (·.product_id) hm)

theorem rowIdFor_eq_none (items : List OrderItem) (pid : Nat) :
    rowIdFor items pid = none ↔ hasPid items pid = false := by
  induction items with
  | nil => simp [rowIdFor, hasPid]
  | cons r rest ih =>
      by_cases hx : r.product_id = pid
      · simp [rowIdFor, hasPid, hx]
      · simp [rowIdFor, hasPid, hx, ih]

theorem rowIdFor_some (items : List OrderItem) (pid rid : Nat)
    (h : rowIdFor items pid = some rid) :
    ∃ r ∈ items, r.product_id = pid ∧ r.id = rid := by
  induction items with
  | nil => exact Option.noConfusion h
  | cons r rest ih =>
      by_cases hx : r.product_id = pid
      · rw [rowIdFor, if_pos hx] at h
        exact ⟨r, .head _, hx, Option.some.inj h⟩
      · rw [rowIdFor, if_neg hx] at h
        obtain ⟨r', hm, h1, h2⟩ := ih h
        exact ⟨r', .tail _ hm, h1, h2⟩

theorem rowIdFor_of_mem_nodup (items : List OrderItem) (r : OrderItem)
    (hN : (items.map (·.product_id)).Nodup) (hm : r ∈ items) :
    rowIdFor items r.product_id = some r.id := by
  induction items with
  | nil => cases hm
  | cons r0 rest ih =>
      rw [List.map_cons, List.nodup_cons] at hN
      cases hm with
      | head => rw [rowIdFor, if_pos rfl]
      | tail _ hm' =>
          have hx : r0.product_id ≠ r.product_id := by
            intro hcon
            exact hN.1 (hcon ▸ List.mem_map_of_mem (·.product_id) hm')
          rw [rowIdFor, if_neg hx]
          exact ih hN.2 hm'

theorem freshCount_append (orig : List OrderItem) (P Q : List ItemReq) :
    freshCount orig (P ++ Q) = freshCount orig P + freshCount orig Q := by
  induction P with
  | nil => simp [freshCount]
  | cons ni P ih =>
      by_cases hx : hasPid orig ni.product_id
      · simp [freshCount, hx, ih]
      · simp [freshCount, hx, ih, Nat.add_assoc]

theorem freshRows_append (ps : List Product) (orig : List OrderItem)
    (P Q : List ItemReq) (nid : Nat) :
    freshRows ps orig (P ++ Q) nid =
      freshRows ps orig P nid ++ freshRows ps orig Q (nid + freshCount orig P) := by
  induction P generalizing nid with
  | nil => simp [freshRows, freshCount]
  | cons ni P ih =>
      by_cases hx : hasPid orig ni.product_id
      · simp [freshRows, freshCount, hx, ih]
      · simp [freshRows, freshCount, hx, ih, Nat.add_assoc]

theorem sumReqs_append (ps : List Product) (P Q : List ItemReq) :
    sumReqs ps (P ++ Q) = sumReqs ps P + sumReqs ps Q := by
  induction P with
  | nil => simp [sumReqs]
  | cons ni P ih =>
      simp only [List.cons_append, sumReqs, List.append_eq, ih]
      ring

theorem freshRows_id_ge (ps : List Product) (orig : List OrderItem)
    (reqs : List ItemReq) (nid : Nat) :
    ∀ f ∈ freshRows ps orig reqs nid, nid ≤ f.id := by
  induction reqs generalizing nid with
  | nil => intro f hf; cases hf
  | cons ni rest ih =>
      intro f hf
      by_cases hx : hasPid orig ni.product_id
      · rw [freshRows, if_pos hx] at hf
        exact ih nid f hf
      · rw [freshRows, if_neg hx] at hf
        cases hf with
        | head => exact Nat.le_refl _
        | tail _ hf' => exact Nat.le_of_succ_le (ih (nid + 1) f hf')

theorem freshRows_mem_spec (ps : List Product) (orig : List OrderItem)
    (reqs : List ItemReq) (nid : Nat) :
    ∀ f ∈ freshRows ps orig reqs nid,
      hasPid orig f.product_id = false ∧
      ∃ ni ∈ reqs, ni.product_id = f.product_id ∧ f.quantity = ni.quantity ∧
        f.unit_price = priceOf ps f.product_id := by
  induction reqs generalizing nid with
  | nil => intro f hf; cases hf
  | cons ni rest ih =>
      intro f hf
      by_cases hx : hasPid orig ni.product_id
      · rw [freshRows, if_pos hx] at hf
        obtain ⟨h1, ni', hm, h2⟩ := ih nid f hf
        exact ⟨h1, ni', .tail _ hm, h2⟩
      · rw [freshRows, if_neg hx] at hf
        cases hf with
        | head => exact ⟨by simpa using hx, ni, .head _, rfl, rfl, rfl⟩
        | tail _ hf' =>
            obtain ⟨h1, ni', hm, h2⟩ := ih (nid + 1) f hf'
            exact ⟨h1, ni', .tail _ hm, h2⟩

theorem freshRows_mem_of_pid (ps : List Product) (orig : List OrderItem)
    (reqs : List ItemReq) (nid pid : Nat)
    (hne : hasPid orig pid = false) (hm : pid ∈ reqs.map (·.product_id)) :
    ∃ f ∈ freshRows ps orig reqs nid, f.product_id = pid := by
  induction reqs generalizing nid with
  | nil => cases hm
  | cons ni rest ih =>
      rw [List.map_cons, List.mem_cons] at hm
      by_cases hx : hasPid orig ni.product_id
      · cases hm with
        | inl h1 =>
            rw [h1] at hne
            simp [hne] at hx
        | inr h2 =>
            obtain ⟨f, hf, hfp⟩ := ih nid h2
            exact ⟨f, by rw [freshRows, if_pos hx]; exact hf, hfp⟩
      · cases hm with
        | inl h1 =>
            refine ⟨⟨nid, ni.product_id, ni.quantity, priceOf ps ni.product_id⟩,
              ?_, h1.symm⟩
            rw [freshRows, if_neg hx]
            exact .head _
        | inr h2 =>
            obtain ⟨f, hf, hfp⟩ := ih (nid + 1) h2
            exact ⟨f, by rw [freshRows, if_neg hx]; exact .tail _ hf, hfp⟩

theorem freshRows_nil_of_all (ps : List Product) (orig : List OrderItem)
    (reqs : List ItemReq) (nid : Nat)
    (h : ∀ ni ∈ reqs, hasPid orig ni.product_id = true) :
    freshRows ps orig reqs nid = [] := by
  induction reqs generalizing nid with
  | nil => rfl
  | cons ni rest ih =>
      rw [freshRows, if_pos (h ni (.head _))]
      exact ih nid (fun x hx => h x (.tail _ hx))

theorem freshCount_zero_of_all (orig : List OrderItem) (reqs : List ItemReq)
    (h : ∀ ni ∈ reqs, hasPid orig ni.product_id = true) :
    freshCount orig reqs = 0 := by
  induction reqs with
  | nil => rfl
  | cons ni rest ih =>
      rw [freshCount, if_pos (h ni (.head _)), Nat.zero_add]
      exact ih (fun x hx => h x (.tail _ hx))

theorem dictEntriesAux_eq (items : List OrderItem) (acc : List (Nat × Nat))
    (hdisj : ∀ r ∈ items, ∀ e ∈ acc, e.1 ≠ r.product_id)
    (hN : (items.map (·.product_id)).Nodup) :
    dictEntriesAux acc items = acc ++ items.map pairOf := by
  induction items generalizing acc with
  | nil => simp [dictEntriesAux]
  | cons i rest ih =>
      rw [List.map_cons, List.nodup_cons] at hN
      have hany : acc.any (fun e => decide (e.1 = i.product_id)) = false := by
        rw [List.any_eq_false]
        intro e he
        simpa using hdisj i (.head _) e he
      rw [dictEntriesAux, upsertEntry, hany]
      simp only [Bool.false_eq_true, if_false]
      rw [ih (acc ++ [(i.product_id, i.id)])]
      · simp [pairOf]
      · intro r hr e he
        rw [List.mem_append] at he
        cases he with
        | inl h1 => exact hdisj r (.tail _ hr) e h1
        | inr h2 =>
            rw [List.mem_singleton] at h2
            subst h2
            intro hcon
            have hcon2 : i.product_id = r.product_id := hcon
            exact hN.1 (by rw [hcon2]; exact List.mem_map_of_mem (·.product_id) hr)
      · exact hN.2

theorem dictEntries_eq_map (items : List OrderItem)
    (hN : (items.map (·.product_id)).Nodup) :
    dictEntries items = items.map pairOf :=
  dictEntriesAux_eq items [] (by simp) hN

theorem lookupPid_map_pairOf (items : List OrderItem) (pid : Nat) :
    lookupPid (items.map pairOf) pid = rowIdFor items pid := by
  induction items with
  | nil => rfl
  | cons r rest ih =>
      by_cases hx : r.product_id = pid
      · simp [lookupPid, rowIdFor, pairOf, hx]
      · simp [lookupPid, rowIdFor, pairOf, hx, ih]

theorem lookupPid_dictEntries (items : List OrderItem) (pid : Nat)
    (hN : (items.map (·.product_id)).Nodup) :
    lookupPid (dictEntries items) pid = rowIdFor items pid := by
  rw [dictEntries_eq_map items hN, lookupPid_map_pairOf]

theorem diffGo_cons_some (ps : List Product) (dict : List (Nat × Nat))
    (ni : ItemReq) (rest : List ItemReq) (cur : List OrderItem) (total : ℚ)
    (seen : List Nat) (nid : Nat) (p : Product) (rid : Nat)
    (hp : getProduct ps ni.product_id = some p)
    (hrid : lookupPid dict ni.product_id = some rid) :
    diffGo ps dict (ni :: rest) cur total seen nid =
      diffGo ps dict rest
        (cur.map (fun r => if r.id = rid then
          { r with quantity := ni.quantity, unit_price := p.price } else r))
        (total + (ni.quantity : ℚ) * p.price) (ni.product_id :: seen) nid := by
  conv_lhs => unfold diffGo
  simp only [hp, hrid]

theorem diffGo_cons_none (ps : List Product) (dict : List (Nat × Nat))
    (ni : ItemReq) (rest : List ItemReq) (cur : List OrderItem) (total : ℚ)
    (seen : List Nat) (nid : Nat) (p : Product)
    (hp : getProduct ps ni.product_id = some p)
    (hrid : lookupPid dict ni.product_id = none) :
    diffGo ps dict (ni :: rest) cur total seen nid =
      diffGo ps dict rest
        (cur ++ [⟨nid, ni.product_id, ni.quantity, p.price⟩])
        (total + (ni.quantity : ℚ) * p.price) (ni.product_id :: seen) (nid + 1) := by
  conv_lhs => unfold diffGo
  simp only [hp, hrid]

theorem cur_update_step (ps : List Product) (orig : List OrderItem)
    (P : List ItemReq) (ni : ItemReq) (p : Product) (rid n0 : Nat)
    (hN : (orig.map (·.product_id)).Nodup)
    (hI : (orig.map (·.id)).Nodup)
    (hLt : ∀ r ∈ orig, r.id < n0)
    (hp : getProduct ps ni.product_id = some p)
    (hrow : rowIdFor orig ni.product_id = some rid)
    (hPnone : findReq P ni.product_id = none) :
    ((orig.map (updateBy ps P) ++ freshRows ps orig P n0).map
        (fun r => if r.id = rid then
          { r with quantity := ni.quantity, unit_price := p.price } else r))
      = orig.map (updateBy ps (P ++ [ni])) ++ freshRows ps orig (P ++ [ni]) n0 := by
  obtain ⟨r0, hr0, hr0pid, hr0id⟩ := rowIdFor_some orig _ rid hrow
  have hhas : hasPid orig ni.product_id = true := by
    rw [← hr0pid]
    exact hasPid_of_mem orig r0 hr0
  rw [List.map_append]
  congr 1
  · rw [List.map_map]
    apply List.map_congr_left
    intro r hr
    show (if (updateBy ps P r).id = rid then
        { updateBy ps P r with quantity := ni.quantity, unit_price := p.price }
      else updateBy ps P r) = updateBy ps (P ++ [ni]) r
    rw [updateBy_id]
    by_cases hpid : r.product_id = ni.product_id
    · have h2 : rowIdFor orig r.product_id = some r.id :=
        rowIdFor_of_mem_nodup orig r hN hr
      rw [hpid, hrow] at h2
      have hridr : r.id = rid := (Option.some.inj h2).symm
      rw [if_pos hridr]
      have hup : updateBy ps P r = r := by
        unfold updateBy
        rw [hpid, hPnone]
      rw [hup]
      unfold updateBy
      rw [findReq_append, hpid, hPnone]
      simp [findReq, priceOf, hp, hpid]
    · have hne : r.id ≠ rid := by
        intro hcon
        have heq := List.inj_on_of_nodup_map hI hr hr0 (by rw [hcon, hr0id])
        rw [heq] at hpid
        exact hpid hr0pid
      rw [if_neg hne]
      unfold updateBy
      rw [findReq_append]
      cases hfp : findReq P r.product_id with
      | some x => rfl
      | none => simp [findReq, Ne.symm hpid]
  · have hfr : freshRows ps orig (P ++ [ni]) n0 = freshRows ps orig P n0 := by
      rw [freshRows_append]
      simp [freshRows, hhas]
    rw [hfr]
    have hids : ∀ f ∈ freshRows ps orig P n0,
        (if f.id = rid then
          { f with quantity := ni.quantity, unit_price := p.price } else f) = f := by
      intro f hf
      rw [if_neg]
      intro hcon
      have h1 := freshRows_id_ge ps orig P n0 f hf
      have h2 := hLt r0 hr0
      rw [hcon, ← hr0id] at h1
      omega
    rw [List.map_congr_left hids]
    simp

theorem cur_append_step (ps : List Product) (orig : List OrderItem)
    (P : List ItemReq) (ni : ItemReq) (p : Product) (n0 : Nat)
    (hp : getProduct ps ni.product_id = some p)
    (hrow : rowIdFor orig ni.product_id = none) :
    (orig.map (updateBy ps P) ++ freshRows ps orig P n0) ++
        [⟨n0 + freshCount orig P, ni.product_id, ni.quantity, p.price⟩]
      = orig.map (updateBy ps (P ++ [ni])) ++ freshRows ps orig (P ++ [ni]) n0 := by
  have hhas : hasPid orig ni.product_id = false := (rowIdFor_eq_none orig _).mp hrow
  have hupd : orig.map (updateBy ps P) = orig.map (updateBy ps (P ++ [ni])) := by
    apply List.map_congr_left
    intro r hr
    have hpid : r.product_id ≠ ni.product_id := by
      intro hcon
      have hmm := hasPid_of_mem orig r hr
      rw [hcon, hhas] at hmm
      exact Bool.noConfusion hmm
    unfold updateBy
    rw [findReq_append]
    cases hfp : findReq P r.product_id with
    | some x => rfl
    | none => simp [findReq, Ne.symm hpid]
  have hfr : freshRows ps orig (P ++ [ni]) n0 =
      freshRows ps orig P n0 ++
        [⟨n0 + freshCount orig P, ni.product_id, ni.quantity,
          priceOf ps ni.product_id⟩] := by
    rw [freshRows_append]
    simp [freshRows, hhas]
  rw [hfr, ← hupd, List.append_assoc]
  simp [priceOf, hp]

/-- Invariant characterisation of the whole reconciliation loop: starting
from the stored rows, processing the remaining requests updates matched rows
in place, appends fresh rows with consecutive ids, accumulates the running
total and the seen set, and never fails while every product exists. -/
theorem diffGo_spec_aux (ps : List Product) (orig : List OrderItem) (n0 : Nat)
    (hN : (orig.map (·.product_id)).Nodup)
    (hI : (orig.map (·.id)).Nodup)
    (hLt : ∀ r ∈ orig, r.id < n0) :
    ∀ (rest P : List ItemReq) (t0 : ℚ) (s0 : List Nat),
      ((P ++ rest).map (·.product_id)).Nodup →
      (∀ ni ∈ rest, (getProduct ps ni.product_id).isSome = true) →
      diffGo ps (dictEntries orig) rest
          (orig.map (updateBy ps P) ++ freshRows ps orig P n0)
          (t0 + sumReqs ps P)
          ((P.map (·.product_id)).reverse ++ s0)
          (n0 + freshCount orig P)
        = .ok (orig.map (updateBy ps (P ++ rest)) ++ freshRows ps orig (P ++ rest) n0,
               t0 + sumReqs ps (P ++ rest),
               ((P ++ rest).map (·.product_id)).reverse ++ s0,
               n0 + freshCount orig (P ++ rest)) := by
  intro rest
  induction rest with
  | nil =>
      intro P t0 s0 _ _
      simp [diffGo]
  | cons ni rest ih =>
      intro P t0 s0 hNodup hPres
      obtain ⟨p, hp⟩ := Option.isSome_iff_exists.mp (hPres ni (.head _))
      have hPnone : findReq P ni.product_id = none := by
        rw [findReq_eq_none]
        intro hcon
        rw [List.map_append] at hNodup
        exact (List.disjoint_of_nodup_append hNodup) hcon (by simp)
      have happ : (P ++ [ni]) ++ rest = P ++ ni :: rest := by simp
      have htot : t0 + sumReqs ps P + (ni.quantity : ℚ) * p.price =
          t0 + sumReqs ps (P ++ [ni]) := by
        rw [sumReqs_append]
        simp [sumReqs, priceOf, hp]
        ring
      have hseen : ni.product_id :: ((P.map (·.product_id)).reverse ++ s0) =
          ((P ++ [ni]).map (·.product_id)).reverse ++ s0 := by
        simp
      cases hrow : rowIdFor orig ni.product_id with
      | some rid =>
          have hhas : hasPid orig ni.product_id = true := by
            obtain ⟨r0, hr0, hr0pid, _⟩ := rowIdFor_some orig _ rid hrow
            rw [← hr0pid]
            exact hasPid_of_mem orig r0 hr0
          rw [diffGo_cons_some ps (dictEntries orig) ni rest _ _ _ _ p rid hp
            (by rw [lookupPid_dictEntries orig ni.product_id hN]; exact hrow)]
          rw [cur_update_step ps orig P ni p rid n0 hN hI hLt hp hrow hPnone]
          rw [htot, hseen]
          have hcnt : n0 + freshCount orig P = n0 + freshCount orig (P ++ [ni]) := by
            rw [freshCount_append]
            simp [freshCount, hhas]
          rw [hcnt]
          have := ih (P ++ [ni]) t0 s0 (by rw [happ]; exact hNodup)
            (fun x hx => hPres x (.tail _ hx))
          rw [happ] at this
          exact this
      | none =>
          have hhas : hasPid orig ni.product_id = false :=
            (rowIdFor_eq_none orig _).mp hrow
          rw [diffGo_cons_none ps (dictEntries orig) ni rest _ _ _ _ p hp
            (by rw [lookupPid_dictEntries orig ni.product_id hN]; exact hrow)]
          rw [cur_append_step ps orig P ni p n0 hp hrow]
          rw [htot, hseen]
          have hcnt : n0 + freshCount orig P + 1 = n0 + freshCount orig (P ++ [ni]) := by
            rw [freshCount_append]
            simp [freshCount, hhas]
            omega
          rw [hcnt]
          have := ih (P ++ [ni]) t0 s0 (by rw [happ]; exact hNodup)
            (fun x hx => hPres x (.tail _ hx))
          rw [happ] at this
          exact this

/-- The reconciliation loop on the actual starting state of
`OrderRepository.update`. -/
theorem diffGo_spec (ps : List Product) (orig : List OrderItem) (n0 : Nat)
    (news : List ItemReq)
    (hN : (orig.map (·.product_id)).Nodup)
    (hI : (orig.map (·.id)).Nodup)
    (hLt : ∀ r ∈ orig, r.id < n0)
    (hNews : (news.map (·.product_id)).Nodup)
    (hPres : ∀ ni ∈ news, (getProduct ps ni.product_id).isSome = true) :
    diffGo ps (dictEntries orig) news orig 0 [] n0
      = .ok (orig.map (updateBy ps news) ++ freshRows ps orig news n0,
             sumReqs ps news,
             (news.map (·.product_id)).reverse,
             n0 + freshCount orig news) := by
  have h := diffGo_spec_aux ps orig n0 hN hI hLt news [] 0 []
    (by simpa using hNews) hPres
  have h1 : orig.map (updateBy ps []) ++ freshRows ps orig [] n0 = orig := by
    rw [List.map_congr_left (fun r _ => updateBy_nil ps r)]
    simp [freshRows]
  have h2 : (0 : ℚ) + sumReqs ps [] = 0 := by simp [sumReqs]
  rw [h1, h2] at h
  simpa [freshCount] using h

theorem mem_deadRowIds (orig : List OrderItem) (seen : List Nat) (rid : Nat)
    (hN : (orig.map (·.product_id)).Nodup) :
    rid ∈ deadRowIds (dictEntries orig) seen ↔
      ∃ r ∈ orig, r.id = rid ∧ r.product_id ∉ seen := by
  rw [dictEntries_eq_map orig hN]
  simp only [deadRowIds, List.mem_filterMap, List.mem_map]
  constructor
  · rintro ⟨e, ⟨r, hr, rfl⟩, he⟩
    by_cases hs : (pairOf r).1 ∈ seen
    · rw [if_pos hs] at he
      exact Option.noConfusion he
    · rw [if_neg hs] at he
      exact ⟨r, hr, Option.some.inj he, hs⟩
  · rintro ⟨r, hr, hid, hs⟩
    refine ⟨pairOf r, ⟨r, hr, rfl⟩, ?_⟩
    simp only [pairOf]
    rw [if_neg hs]
    exact congrArg some hid

theorem final_filter_spec (ps : List Product) (orig : List OrderItem)
    (news : List ItemReq) (n0 : Nat)
    (hN : (orig.map (·.product_id)).Nodup)
    (hI : (orig.map (·.id)).Nodup)
    (hLt : ∀ r ∈ orig, r.id < n0) :
    (orig.map (updateBy ps news) ++ freshRows ps orig news n0).filter
        (fun r => decide
          (r.id ∉ deadRowIds (dictEntries orig) ((news.map (·.product_id)).reverse)))
      = (orig.filter (fun r => (findReq news r.product_id).isSome)).map
          (updateBy ps news)
        ++ freshRows ps orig news n0 := by
  rw [List.filter_append]
  congr 1
  · rw [List.filter_map]
    refine congrArg (List.map (updateBy ps news)) (List.filter_congr ?_)
    intro r hr
    show decide ((updateBy ps news r).id ∉ _) = (findReq news r.product_id).isSome
    rw [updateBy_id]
    have hiff : (r.id ∉ deadRowIds (dictEntries orig)
        ((news.map (·.product_id)).reverse)) ↔
        (findReq news r.product_id).isSome = true := by
      rw [mem_deadRowIds orig _ _ hN, findReq_isSome]
      constructor
      · intro hnd
        by_contra hmem
        rw [← List.mem_reverse] at hmem
        exact hnd ⟨r, hr, rfl, hmem⟩
      · intro hmem hcon
        obtain ⟨r', hr', hid, hs⟩ := hcon
        have : r' = r := List.inj_on_of_nodup_map hI hr' hr hid
        subst this
        exact hs (List.mem_reverse.mpr hmem)
    rw [decide_eq_decide.mpr hiff, Bool.decide_coe]
  · apply List.filter_eq_self.mpr
    intro f hf
    simp only [decide_eq_true_eq]
    intro hcon
    rw [mem_deadRowIds orig _ _ hN] at hcon
    obtain ⟨r, hr, hid, _⟩ := hcon
    have h1 := freshRows_id_ge ps orig news n0 f hf
    have h2 := hLt r hr
    omega

theorem diffGo_cons_err (ps : List Product) (dict : List (Nat × Nat))
    (ni : ItemReq) (rest : List ItemReq) (cur : List OrderItem) (total : ℚ)
    (seen : List Nat) (nid : Nat)
    (hp : getProduct ps ni.product_id = none) :
    diffGo ps dict (ni :: rest) cur total seen nid =
      .error (.productNotFound ni.product_id) := by
  conv_lhs => unfold diffGo
  simp only [hp]

theorem diffGo_ok_pres (ps : List Product) (dict : List (Nat × Nat))
    (reqs : List ItemReq) :
    ∀ (cur : List OrderItem) (t : ℚ) (s : List Nat) (n : Nat)
      (x : List OrderItem × ℚ × List Nat × Nat),
      diffGo ps dict reqs cur t s n = .ok x →
      ∀ ni ∈ reqs, (getProduct ps ni.product_id).isSome = true := by
  induction reqs with
  | nil => intro _ _ _ _ _ _ ni hm; cases hm
  | cons n0 rest ih =>
      intro cur t s n x h ni hm
      cases hp : getProduct ps n0.product_id with
      | none =>
          rw [diffGo_cons_err ps dict n0 rest cur t s n hp] at h
          exact Except.noConfusion h
      | some p =>
          cases hm with
          | head => rw [hp]; rfl
          | tail _ hm' =>
              cases hl : lookupPid dict n0.product_id with
              | some rid =>
                  rw [diffGo_cons_some ps dict n0 rest cur t s n p rid hp hl] at h
                  exact ih _ _ _ _ x h ni hm'
              | none =>
                  rw [diffGo_cons_none ps dict n0 rest cur t s n p hp hl] at h
                  exact ih _ _ _ _ x h ni hm'

/-- Full characterisation of `OrderRepository.update` on an items patch,
under well-formedness of the stored rows (distinct product ids, distinct row
ids below the autoincrement counter) and a duplicate-free patch whose
products all exist. -/
theorem orderRepository_update_spec (db : DB) (oid : Nat) (order : Order)
    (st? : Option String) (news : List ItemReq)
    (hfind : getOrder db.orders oid = some order)
    (hN : (order.items.map (·.product_id)).Nodup)
    (hI : (order.items.map (·.id)).Nodup)
    (hLt : ∀ r ∈ order.items, r.id < db.nextItemId)
    (hNews : (news.map (·.product_id)).Nodup)
    (hPres : ∀ ni ∈ news, (getProduct db.products ni.product_id).isSome = true) :
    OrderRepository.update db oid st? (some news) =
      (.ok (some { order with
          status := st?.getD order.status,
          items := (order.items.filter
              (fun r => (findReq news r.product_id).isSome)).map
                (updateBy db.products news)
              ++ freshRows db.products order.items news db.nextItemId,
          total_amount := sumReqs db.products news }),
       { db with
           orders := replaceOrder db.orders oid { order with
             status := st?.getD order.status,
             items := (order.items.filter
                 (fun r => (findReq news r.product_id).isSome)).map
                   (updateBy db.products news)
                 ++ freshRows db.products order.items news db.nextItemId,
             total_amount := sumReqs db.products news },
           nextItemId := db.nextItemId + freshCount order.items news }) := by
  simp only [OrderRepository.update, hfind,
    diffGo_spec db.products order.items db.nextItemId news hN hI hLt hNews hPres,
    final_filter_spec db.products order.items news db.nextItemId hN hI hLt]

theorem update_ok_pres (db : DB) (oid : Nat) (order : Order) (st? : Option String)
    (news : List ItemReq) (res : Option Order) (db2 : DB)
    (hfind : getOrder db.orders oid = some order)
    (h : OrderRepository.update db oid st? (some news) = (.ok res, db2)) :
    ∀ ni ∈ news, (getProduct db.products ni.product_id).isSome = true := by
  rcases hd : diffGo db.products (dictEntries order.items) news order.items
      0 [] db.nextItemId with e | x
  · have herr : OrderRepository.update db oid st? (some news) = (.error e, db) := by
      simp only [OrderRepository.update, hfind, hd]
    rw [herr] at h
    exact absurd (congrArg Prod.fst h) (by simp)
  · exact diffGo_ok_pres db.products (dictEntries order.items) news _ _ _ _ x hd

/-- C6 amended: for a well-formed order (distinct product ids and row ids,
row ids below the id counter) and a patch with distinct product ids, a
successful `OrderRepository.update` with an items list is replace-by-key:
the final rows' product ids are exactly the incoming ones; every final row
carries the incoming quantity and the product's current price; a row whose
product was already present keeps its original row id (updated in place); a
row whose product was absent is a fresh row (id at or above the previous
autoincrement counter). -/
theorem item_reconciliation_replace_by_key (db : DB) (oid : Nat)
    (order o : Order) (db' : DB) (st? : Option String) (news : List ItemReq)
    (hfind : getOrder db.orders oid = some order)
    (hN : (order.items.map (·.product_id)).Nodup)
    (hI : (order.items.map (·.id)).Nodup)
    (hLt : ∀ r ∈ order.items, r.id < db.nextItemId)
    (hNews : (news.map (·.product_id)).Nodup)
    (hok : OrderRepository.update db oid st? (some news) = (.ok (some o), db')) :
    (∀ pid, (∃ r ∈ o.items, r.product_id = pid) ↔ (∃ ni ∈ news, ni.product_id = pid))
    ∧ (∀ r ∈ o.items, ∃ ni ∈ news, ni.product_id = r.product_id ∧
        r.quantity = ni.quantity ∧ r.unit_price = priceOf db.products r.product_id)
    ∧ (∀ r ∈ o.items, hasPid order.items r.product_id = true →
        ∃ r0 ∈ order.items, r0.product_id = r.product_id ∧ r.id = r0.id)
    ∧ (∀ r ∈ o.items, hasPid order.items r.product_id = false →
        db.nextItemId ≤ r.id) := by
  have hPres := update_ok_pres db oid order st? news (some o) db' hfind hok
  rw [orderRepository_update_spec db oid order st? news hfind hN hI hLt hNews hPres]
    at hok
  have h1 := congrArg Prod.fst hok
  simp only [] at h1
  obtain rfl : o = _ := (Option.some.inj (Except.ok.inj h1)).symm
  refine ⟨?_, ?_, ?_, ?_⟩
  · intro pid
    constructor
    · rintro ⟨r, hrm, rfl⟩
      rw [List.mem_append] at hrm
      cases hrm with
      | inl hkeep =>
          obtain ⟨r0, hr0f, rfl⟩ := List.mem_map.mp hkeep
          rw [List.mem_filter] at hr0f
          obtain ⟨ni, hni⟩ := Option.isSome_iff_exists.mp hr0f.2
          obtain ⟨hmem, hpid⟩ := findReq_some news r0.product_id ni hni
          exact ⟨ni, hmem, by rw [updateBy_product_id]; exact hpid⟩
      | inr hfr =>
          obtain ⟨_, ni, hm, hpid, _⟩ :=
            freshRows_mem_spec db.products order.items news db.nextItemId r hfr
          exact ⟨ni, hm, hpid⟩
    · rintro ⟨ni, hm, rfl⟩
      by_cases hx : hasPid order.items ni.product_id
      · obtain ⟨r0, hr0, hr0pid⟩ := List.mem_map.mp ((hasPid_iff_mem _ _).mp hx)
        refine ⟨updateBy db.products news r0,
          List.mem_append_left _ (List.mem_map_of_mem _ (List.mem_filter.mpr
            ⟨hr0, ?_⟩)), by rw [updateBy_product_id]; exact hr0pid⟩
        rw [findReq_isSome, hr0pid]
        exact List.mem_map_of_mem _ hm
      · obtain ⟨f, hf, hfp⟩ := freshRows_mem_of_pid db.products order.items news
          db.nextItemId ni.product_id (by simpa using hx)
          (List.mem_map_of_mem _ hm)
        exact ⟨f, List.mem_append_right _ hf, hfp⟩
  · intro r hrm
    rw [List.mem_append] at hrm
    cases hrm with
    | inl hkeep =>
        obtain ⟨r0, hr0f, rfl⟩ := List.mem_map.mp hkeep
        rw [List.mem_filter] at hr0f
        obtain ⟨ni, hni⟩ := Option.isSome_iff_exists.mp hr0f.2
        obtain ⟨hmem, hpid⟩ := findReq_some news r0.product_id ni hni
        refine ⟨ni, hmem, ?_, ?_, ?_⟩
        · rw [updateBy_product_id]; exact hpid
        · simp [updateBy, hni]
        · simp [updateBy, hni]
    | inr hfr =>
        obtain ⟨_, ni, hm, hpid, hq, hup⟩ :=
          freshRows_mem_spec db.products order.items news db.nextItemId r hfr
        exact ⟨ni, hm, hpid, hq, hup⟩
  · intro r hrm hhas
    rw [List.mem_append] at hrm
    cases hrm with
    | inl hkeep =>
        obtain ⟨r0, hr0f, rfl⟩ := List.mem_map.mp hkeep
        rw [List.mem_filter] at hr0f
        exact ⟨r0, hr0f.1, (updateBy_product_id _ _ _).symm, updateBy_id _ _ _⟩
    | inr hfr =>
        obtain ⟨hfalse, _⟩ :=
          freshRows_mem_spec db.products order.items news db.nextItemId r hfr
        rw [hfalse] at hhas
        exact Bool.noConfusion hhas
  · intro r hrm hhasf
    rw [List.mem_append] at hrm
    cases hrm with
    | inl hkeep =>
        obtain ⟨r0, hr0f, rfl⟩ := List.mem_map.mp hkeep
        rw [List.mem_filter] at hr0f
        rw [updateBy_product_id] at hhasf
        rw [hasPid_of_mem order.items r0 hr0f.1] at hhasf
        exact Bool.noConfusion hhasf
    | inr hfr =>
        exact freshRows_id_ge db.products order.items news db.nextItemId r hfr

def dbC6 : DB := ⟨[1], [⟨7, 10, 50⟩], [⟨5, 1, "pending", 0, []⟩], 10, 200⟩

/-- C6 counterexample: a patch that repeats the same (absent) product id gets
TWO freshly inserted rows for the single key 7, so the final item set is not
keyed by the incoming product ids and "insert one row per new key" fails. -/
theorem replace_by_key_duplicate_counterexample :
    ((OrderRepository.update dbC6 5 none (some [⟨7, 2⟩, ⟨7, 2⟩])).1.toOption.map
        (Option.map Order.items)) =
      some (some [⟨200, 7, 2, 10⟩, ⟨201, 7, 2, 10⟩]) := rfl

def dbC6W : DB :=
  ⟨[1], [⟨1, 10, 50⟩, ⟨2, 20, 30⟩],
   [⟨5, 1, "pending", 0, [⟨100, 1, 2, 10⟩]⟩], 10, 200⟩

def orderC6W : Order := ⟨5, 1, "pending", 0, [⟨100, 1, 2, 10⟩]⟩

def newsC6W : List ItemReq := [⟨1, 3⟩, ⟨2, 1⟩]

def oC6W : Order :=
  { orderC6W with
      status := (none : Option String).getD orderC6W.status,
      items := (orderC6W.items.filter
          (fun r => (findReq newsC6W r.product_id).isSome)).map
            (updateBy dbC6W.products newsC6W)
          ++ freshRows dbC6W.products orderC6W.items newsC6W dbC6W.nextItemId,
      total_amount := sumReqs dbC6W.products newsC6W }

def dbC6W2 : DB :=
  { dbC6W with
      orders := replaceOrder dbC6W.orders 5 oC6W,
      nextItemId := dbC6W.nextItemId + freshCount orderC6W.items newsC6W }

theorem item_reconciliation_replace_by_key_witness :
    (∃ r ∈ oC6W.items, r.product_id = 2) ↔ (∃ ni ∈ newsC6W, ni.product_id = 2) :=
  (item_reconciliation_replace_by_key dbC6W 5 orderC6W oC6W dbC6W2 none newsC6W
    rfl (by decide) (by decide) (by decide) (by decide)
    (orderRepository_update_spec dbC6W 5 orderC6W none newsC6W rfl
      (by decide) (by decide) (by decide) (by decide) (by decide))).1 2

theorem itemsTotal_append (A B : List OrderItem) :
    itemsTotal (A ++ B) = itemsTotal A + itemsTotal B := by
  induction A with
  | nil => simp [itemsTotal]
  | cons a A ih =>
      simp only [List.cons_append, itemsTotal, List.append_eq, ih]
      ring

theorem itemsTotal_eq_sum (l : List OrderItem) :
    itemsTotal l = (l.map (fun oi => (oi.quantity : ℚ) * oi.unit_price)).sum := by
  induction l with
  | nil => rfl
  | cons a l ih => simp [itemsTotal, ih]

theorem sumReqs_eq_sum (ps : List Product) (l : List ItemReq) :
    sumReqs ps l =
      (l.map (fun ni => (ni.quantity : ℚ) * priceOf ps ni.product_id)).sum := by
  induction l with
  | nil => rfl
  | cons a l ih => simp [sumReqs, ih]

theorem itemsTotal_freshRows (ps : List Product) (orig : List OrderItem)
    (news : List ItemReq) (n0 : Nat) :
    itemsTotal (freshRows ps orig news n0) =
      sumReqs ps (news.filter (fun ni => !hasPid orig ni.product_id)) := by
  induction news generalizing n0 with
  | nil => rfl
  | cons ni rest ih =>
      by_cases hx : hasPid orig ni.product_id
      · simp [freshRows, List.filter_cons, hx, ih]
      · simp only [freshRows, hx, Bool.false_eq_true, if_false, itemsTotal,
          List.filter_cons]
        rw [ih (n0 + 1)]
        simp [hx, sumReqs]

/-- Value an incoming product id contributes to the recomputed total. -/
def gval (ps : List Product) (news : List ItemReq) (pid : Nat) : ℚ :=
  match findReq news pid with
  | some ni => (ni.quantity : ℚ) * priceOf ps pid
  | none => 0

theorem itemsTotal_keep (ps : List Product) (orig : List OrderItem)
    (news : List ItemReq)
    (hN : (orig.map (·.product_id)).Nodup)
    (hNews : (news.map (·.product_id)).Nodup) :
    itemsTotal ((orig.filter (fun r => (findReq news r.product_id).isSome)).map
        (updateBy ps news))
      = sumReqs ps (news.filter (fun ni => hasPid orig ni.product_id)) := by
  rw [itemsTotal_eq_sum, sumReqs_eq_sum, List.map_map]
  have hL : (orig.filter (fun r => (findReq news r.product_id).isSome)).map
      ((fun oi => (oi.quantity : ℚ) * oi.unit_price) ∘ updateBy ps news)
      = ((orig.filter (fun r => (findReq news r.product_id).isSome)).map
          (·.product_id)).map (gval ps news) := by
    rw [List.map_map]
    apply List.map_congr_left
    intro r hr
    rw [List.mem_filter] at hr
    obtain ⟨ni, hni⟩ := Option.isSome_iff_exists.mp hr.2
    show (fun oi => (oi.quantity : ℚ) * oi.unit_price) (updateBy ps news r) =
      gval ps news r.product_id
    simp [updateBy, gval, hni]
  have hR : (news.filter (fun ni => hasPid orig ni.product_id)).map
      (fun ni => (ni.quantity : ℚ) * priceOf ps ni.product_id)
      = ((news.filter (fun ni => hasPid orig ni.product_id)).map
          (·.product_id)).map (gval ps news) := by
    rw [List.map_map]
    apply List.map_congr_left
    intro ni hni
    rw [List.mem_filter] at hni
    show (ni.quantity : ℚ) * priceOf ps ni.product_id = gval ps news ni.product_id
    rw [gval, findReq_of_mem_nodup news ni hNews hni.1]
  rw [hL, hR]
  have dA : ((orig.filter (fun r => (findReq news r.product_id).isSome)).map
      (·.product_id)).Nodup :=
    ((List.filter_sublist orig).map (·.product_id)).nodup hN
  have dB : ((news.filter (fun ni => hasPid orig ni.product_id)).map
      (·.product_id)).Nodup :=
    ((List.filter_sublist news).map (·.product_id)).nodup hNews
  have hperm : List.Perm
      ((orig.filter (fun r => (findReq news r.product_id).isSome)).map
        (·.product_id))
      ((news.filter (fun ni => hasPid orig ni.product_id)).map
        (·.product_id)) := by
    rw [List.perm_ext_iff_of_nodup dA dB]
    intro pid
    simp only [List.mem_map, List.mem_filter]
    constructor
    · rintro ⟨r, ⟨hr, hfs⟩, rfl⟩
      obtain ⟨ni, hni⟩ := Option.isSome_iff_exists.mp hfs
      obtain ⟨hmem, hpid⟩ := findReq_some news r.product_id ni hni
      exact ⟨ni, ⟨hmem, by rw [hpid]; exact hasPid_of_mem orig r hr⟩, hpid⟩
    · rintro ⟨ni, ⟨hm, hhas⟩, rfl⟩
      obtain ⟨r, hr, hrpid⟩ := List.mem_map.mp ((hasPid_iff_mem _ _).mp hhas)
      refine ⟨r, ⟨hr, ?_⟩, hrpid⟩
      rw [findReq_isSome, hrpid]
      exact List.mem_map_of_mem (·.product_id) hm
  exact (hperm.map (gval ps news)).sum_eq

theorem sumReqs_filter_split (ps : List Product) (news : List ItemReq)
    (p : ItemReq → Bool) :
    sumReqs ps (news.filter p) + sumReqs ps (news.filter (fun a => !p a)) =
      sumReqs ps news := by
  induction news with
  | nil => simp [sumReqs]
  | cons ni rest ih =>
      by_cases hp : p ni
      · simp only [List.filter_cons, hp, Bool.not_true, Bool.false_eq_true,
          if_false, if_true, sumReqs]
        rw [← ih]
        ring
      · simp only [List.filter_cons, hp, Bool.false_eq_true, if_false, sumReqs]
        rw [← ih]
        ring

/-- C2 amended: the stored `total_amount` equals Σ unit_price × quantity over
the stored item set: unconditionally after `OrderRepository.create`; after an
items update whenever the order's rows and the patch each carry distinct
product ids (and the rows are well-formed); and a status-only update
preserves the invariant because it recomputes nothing and changes no item.
With duplicate product ids in the patch the code double-counts a row and the
claim fails. -/
theorem total_amount_invariant :
    (∀ (db : DB) (uid : Nat) (items : List ItemReq) (o : Order) (db' : DB),
        OrderRepository.create db uid items = (.ok o, db') →
        o.total_amount = itemsTotal o.items ∧ o ∈ db'.orders)
    ∧ (∀ (db : DB) (oid : Nat) (order o : Order) (db' : DB) (st? : Option String)
        (news : List ItemReq),
        getOrder db.orders oid = some order →
        (order.items.map (·.product_id)).Nodup →
        (order.items.map (·.id)).Nodup →
        (∀ r ∈ order.items, r.id < db.nextItemId) →
        (news.map (·.product_id)).Nodup →
        OrderRepository.update db oid st? (some news) = (.ok (some o), db') →
        o.total_amount = itemsTotal o.items)
    ∧ (∀ (db : DB) (oid : Nat) (order o : Order) (db' : DB) (st? : Option String),
        getOrder db.orders oid = some order →
        order.total_amount = itemsTotal order.items →
        OrderRepository.update db oid st? none = (.ok (some o), db') →
        o.total_amount = itemsTotal o.items) := by
  refine ⟨?_, ?_, ?_⟩
  · intro db uid items o db' h
    simp only [OrderRepository.create] at h
    split at h
    · split at h
      · exact absurd (congrArg Prod.fst h) (by simp)
      · rename_i ois heq
        obtain rfl : o = ⟨db.nextOrderId, uid, "pending", itemsTotal ois, ois⟩ :=
          (Except.ok.inj (congrArg Prod.fst h)).symm
        refine ⟨rfl, ?_⟩
        have h2 := congrArg Prod.snd h
        dsimp only at h2
        rw [← h2]
        simp
    · exact absurd (congrArg Prod.fst h) (by simp)
  · intro db oid order o db' st? news hfind hN hI hLt hNews hok
    have hPres := update_ok_pres db oid order st? news (some o) db' hfind hok
    rw [orderRepository_update_spec db oid order st? news hfind hN hI hLt hNews
      hPres] at hok
    obtain rfl : o = _ :=
      (Option.some.inj (Except.ok.inj (congrArg Prod.fst hok))).symm
    show sumReqs db.products news = itemsTotal _
    rw [itemsTotal_append, itemsTotal_keep db.products order.items news hN hNews,
      itemsTotal_freshRows]
    exact (sumReqs_filter_split db.products news
      (fun ni => hasPid order.items ni.product_id)).symm
  · intro db oid order o db' st? hfind hinv hok
    have hred : OrderRepository.update db oid st? none =
        (.ok (some { order with status := st?.getD order.status }),
         { db with orders := replaceOrder db.orders oid { order with status := st?.getD order.status } }) := by
      simp only [OrderRepository.update, hfind]
    rw [hred] at hok
    obtain rfl : o = { order with status := st?.getD order.status } :=
      (Option.some.inj (Except.ok.inj (congrArg Prod.fst hok))).symm
    exact hinv

def dbC2 : DB :=
  ⟨[1], [⟨1, 10, 50⟩], [⟨5, 1, "pending", 20, [⟨100, 1, 2, 10⟩]⟩], 10, 200⟩

/-- C2 counterexample: an update whose items list repeats product 1 twice
(qty 1 each) succeeds, updates the single stored row to quantity 1 but
accumulates the price twice: stored total 20 while the final item set sums
to 10. -/
theorem total_amount_duplicate_patch_violation :
    ((OrderRepository.update dbC2 5 none (some [⟨1, 1⟩, ⟨1, 1⟩])).1.toOption.map
        (Option.map Order.items)) = some (some [⟨100, 1, 1, 10⟩])
    ∧ ((OrderRepository.update dbC2 5 none (some [⟨1, 1⟩, ⟨1, 1⟩])).1.toOption.map
        (Option.map Order.total_amount)) = some (some 20)
    ∧ itemsTotal [⟨100, 1, 1, 10⟩] = 10
    ∧ (20 : ℚ) ≠ 10 := by
  refine ⟨rfl, ?_, ?_, by norm_num⟩
  · show some (some ((0 : ℚ) + ((1 : Int) : ℚ) * 10 + ((1 : Int) : ℚ) * 10)) =
      some (some 20)
    norm_num
  · show ((1 : Int) : ℚ) * 10 + 0 = 10
    norm_num

def orderC2W : Order := ⟨5, 1, "pending", itemsTotal [⟨100, 1, 2, 10⟩], [⟨100, 1, 2, 10⟩]⟩

def dbC2W : DB := ⟨[1], [⟨1, 10, 50⟩], [orderC2W], 10, 200⟩

theorem total_amount_invariant_witness :
    ({ orderC2W with status := "shipped" } : Order).total_amount =
      itemsTotal ({ orderC2W with status := "shipped" } : Order).items :=
  total_amount_invariant.2.2 dbC2W 5 orderC2W { orderC2W with status := "shipped" }
    { dbC2W with orders := replaceOrder dbC2W.orders 5 { orderC2W with status := "shipped" } }
    (some "shipped") rfl rfl rfl

theorem replaceOrder_not_mem (os : List Order) (oid : Nat) (x : Order)
    (h : oid ∉ os.map (·.id)) : replaceOrder os oid x = os := by
  induction os with
  | nil => rfl
  | cons a os ih =>
      rw [List.map_cons, List.mem_cons] at h
      push_neg at h
      rw [replaceOrder, if_neg (fun hc => h.1 hc.symm), ih h.2]

theorem replaceOrder_self (os : List Order) (oid : Nat) (o : Order)
    (hfind : getOrder os oid = some o) (hNod : (os.map (·.id)).Nodup) :
    replaceOrder os oid o = os := by
  induction os with
  | nil => exact Option.noConfusion hfind
  | cons a os ih =>
      rw [List.map_cons, List.nodup_cons] at hNod
      by_cases ha : a.id = oid
      · rw [getOrder, if_pos ha] at hfind
        obtain rfl : a = o := Option.some.inj hfind
        rw [replaceOrder, if_pos ha,
          replaceOrder_not_mem os oid a (ha ▸ hNod.1)]
      · rw [getOrder, if_neg ha] at hfind
        rw [replaceOrder, if_neg ha, ih hfind hNod.2]

/-- The `{product_id, quantity}` dict a caller would send to re-supply an
order's current item set unchanged. -/
def toReq (r : OrderItem) : ItemReq := ⟨r.product_id, r.quantity⟩

theorem findReq_map_toReq (orig : List OrderItem) (r : OrderItem)
    (hN : (orig.map (·.product_id)).Nodup) (hm : r ∈ orig) :
    findReq (orig.map toReq) r.product_id = some (toReq r) := by
  show findReq (orig.map toReq) (toReq r).product_id = some (toReq r)
  apply findReq_of_mem_nodup
  · rw [List.map_map]
    exact hN
  · exact List.mem_map_of_mem toReq hm

theorem sumReqs_map_toReq (ps : List Product) (orig : List OrderItem)
    (hprice : ∀ r ∈ orig, priceOf ps r.product_id = r.unit_price) :
    sumReqs ps (orig.map toReq) = itemsTotal orig := by
  induction orig with
  | nil => rfl
  | cons r rest ih =>
      simp only [List.map_cons, sumReqs, itemsTotal, toReq]
      rw [hprice r (.head _), ih (fun x hx => hprice x (.tail _ hx))]

/-- C7 amended: re-supplying exactly the order's current item set changes
nothing — provided each item's price snapshot still equals the product's
current price and the stored total satisfies the invariant, the update
returns the order unchanged and the state bit-for-bit unchanged (no stock
mutation, same total).  When a catalog price drifted, the snapshot is
refreshed and the total changes (see the counterexample). -/
theorem identical_patch_noop (db : DB) (oid : Nat) (order : Order)
    (hfind : getOrder db.orders oid = some order)
    (hOids : (db.orders.map (·.id)).Nodup)
    (hN : (order.items.map (·.product_id)).Nodup)
    (hI : (order.items.map (·.id)).Nodup)
    (hLt : ∀ r ∈ order.items, r.id < db.nextItemId)
    (hsnap : ∀ r ∈ order.items, ∃ p, getProduct db.products r.product_id = some p ∧
      p.price = r.unit_price)
    (hinv : order.total_amount = itemsTotal order.items) :
    OrderRepository.update db oid none (some (order.items.map toReq)) =
      (.ok (some order), db) := by
  have hprice : ∀ r ∈ order.items, priceOf db.products r.product_id = r.unit_price := by
    intro r hr
    obtain ⟨p, hp, he⟩ := hsnap r hr
    simp [priceOf, hp, he]
  have hPres : ∀ ni ∈ order.items.map toReq,
      (getProduct db.products ni.product_id).isSome = true := by
    intro ni hm
    obtain ⟨r, hr, rfl⟩ := List.mem_map.mp hm
    obtain ⟨p, hp, _⟩ := hsnap r hr
    show (getProduct db.products r.product_id).isSome = true
    rw [hp]
    rfl
  have hNews : ((order.items.map toReq).map (·.product_id)).Nodup := by
    rw [List.map_map]
    exact hN
  rw [orderRepository_update_spec db oid order none (order.items.map toReq)
    hfind hN hI hLt hNews hPres]
  have hasAll : ∀ ni ∈ order.items.map toReq,
      hasPid order.items ni.product_id = true := by
    intro ni hm
    obtain ⟨r, hr, rfl⟩ := List.mem_map.mp hm
    exact hasPid_of_mem order.items r hr
  have hfresh : freshRows db.products order.items (order.items.map toReq)
      db.nextItemId = [] :=
    freshRows_nil_of_all _ _ _ _ hasAll
  have hfc : freshCount order.items (order.items.map toReq) = 0 :=
    freshCount_zero_of_all _ _ hasAll
  have hfilter : order.items.filter
      (fun r => (findReq (order.items.map toReq) r.product_id).isSome) =
      order.items := by
    apply List.filter_eq_self.mpr
    intro r hr
    rw [findReq_map_toReq order.items r hN hr]
    rfl
  have hmapu : order.items.map (updateBy db.products (order.items.map toReq)) =
      order.items := by
    have hpt : ∀ r ∈ order.items,
        updateBy db.products (order.items.map toReq) r = r := by
      intro r hr
      simp only [updateBy, findReq_map_toReq order.items r hN hr, toReq,
        hprice r hr]
    rw [List.map_congr_left hpt]
    simp
  have htot : sumReqs db.products (order.items.map toReq) = order.total_amount := by
    rw [sumReqs_map_toReq db.products order.items hprice]
    exact hinv.symm
  rw [hfilter, hmapu, hfresh, hfc, htot]
  have horder : ({ order with
      status := (none : Option String).getD order.status,
      items := order.items ++ ([] : List OrderItem),
      total_amount := order.total_amount }) = order := by
    simp
  rw [horder, replaceOrder_self db.orders oid order hfind hOids]
  simp

def dbC7 : DB :=
  ⟨[1], [⟨1, 15, 50⟩], [⟨5, 1, "pending", 20, [⟨100, 1, 2, 10⟩]⟩], 10, 200⟩

/-- C7 counterexample: the order holds exactly one item (product 1, qty 2,
snapshot 10) and the patch re-supplies the identical (product_id, quantity)
set, yet the update is not a no-op: the catalog price drifted to 15, so the
row's snapshot is refreshed and the stored order changes. -/
theorem identical_patch_price_drift_counterexample :
    (getOrder dbC7.orders 5).map Order.items = some [⟨100, 1, 2, 10⟩]
    ∧ ((OrderRepository.update dbC7 5 none (some [⟨1, 2⟩])).1.toOption.map
        (Option.map Order.items)) = some (some [⟨100, 1, 2, 15⟩])
    ∧ ([⟨100, 1, 2, 15⟩] : List OrderItem) ≠ [⟨100, 1, 2, 10⟩] := by
  refine ⟨rfl, rfl, ?_⟩
  intro h
  have h2 : (15 : ℚ) = 10 := congrArg OrderItem.unit_price (List.head_eq_of_cons_eq h)
  norm_num at h2

def orderC7W : Order := ⟨5, 1, "pending", itemsTotal [⟨100, 1, 2, 10⟩], [⟨100, 1, 2, 10⟩]⟩

def dbC7W : DB := ⟨[1], [⟨1, 10, 50⟩], [orderC7W], 10, 200⟩

theorem identical_patch_noop_witness :
    OrderRepository.update dbC7W 5 none (some (orderC7W.items.map toReq)) =
      (.ok (some orderC7W), dbC7W) :=
  identical_patch_noop dbC7W 5 orderC7W rfl (by decide) (by decide) (by decide)
    (by decide)
    (by
      intro r hr
      have hr2 : r ∈ ([⟨100, 1, 2, 10⟩] : List OrderItem) := hr
      rw [List.mem_singleton] at hr2
      subst hr2
      exact ⟨⟨1, 10, 50⟩, rfl, rfl⟩)
    rfl
